import Mathlib

/-!
Verification development for the layout-editor reordering engine
(`data_manager.js`, `visual_renderer.js`, `properties_panel.js`,
`field_types.js`).  JavaScript objects are embedded as association
lists of string keys to a small JS value type; all data-manager
operations are translated as pure state-passing functions.
-/

namespace LayoutEditor

/-- JS values as they occur in the engine: strings, (integer) numbers,
booleans, null and undefined.  Floating point and NaN do not occur in
the modelled code paths. -/
inductive Value where
  | str (s : String)
  | num (n : Int)
  | bool (b : Bool)
  | null
  | undefined
deriving Repr, DecidableEq

/-- JS truthiness for the modelled values. -/
def Value.truthy : Value → Bool
  | .str s => s ≠ ""
  | .num n => n ≠ 0
  | .bool b => b
  | .null => false
  | .undefined => false

/-- JS strict equality on the modelled values: same type and same
content; cross-type comparisons are false. -/
def Value.seq : Value → Value → Bool
  | .str a, .str b => a == b
  | .num a, .num b => a == b
  | .bool a, .bool b => a == b
  | .null, .null => true
  | .undefined, .undefined => true
  | _, _ => false

/-- JS string coercion, as used for object keys. -/
def Value.toKey : Value → String
  | .str s => s
  | .num n => toString n
  | .bool b => if b then "true" else "false"
  | .null => "null"
  | .undefined => "undefined"

/-- A field descriptor: a JS object, i.e. an association list from
property names to values (first occurrence of a key wins, as keys are
unique in a JS object). -/
abbrev Field := List (String × Value)

/-- Object property read: value at the key, or undefined. -/
def jsGet (f : Field) (k : String) : Value :=
  match f.find? (fun e => e.1 == k) with
  | some e => e.2
  | none => .undefined

/-- Generic keyed update on an association list: replace the value at
the first occurrence of the key, or append the binding. -/
def setKey {α : Type} : List (String × α) → String → α → List (String × α)
  | [], k, v => [(k, v)]
  | e :: rest, k, v => if e.1 = k then (k, v) :: rest else e :: setKey rest k v

/-- Generic keyed lookup on an association list. -/
def lookupKey {α : Type} : List (String × α) → String → Option α
  | [], _ => none
  | e :: rest, k => if e.1 = k then some e.2 else lookupKey rest k

/-- Object property write (`field[property] = value`). -/
def jsSet (f : Field) (k : String) (v : Value) : Field := setKey f k v

/-- `fieldtype === 'Tab Break'` (field_types.js isTabBreak). -/
def isTabBreak (f : Field) : Bool := Value.seq (jsGet f "fieldtype") (.str "Tab Break")

/-- `fieldtype === 'Section Break'` (field_types.js isSectionBreak). -/
def isSectionBreak (f : Field) : Bool := Value.seq (jsGet f "fieldtype") (.str "Section Break")

/-- `fieldtype === 'Column Break'` (field_types.js isColumnBreak). -/
def isColumnBreak (f : Field) : Bool := Value.seq (jsGet f "fieldtype") (.str "Column Break")

/-- field_types.js isBreak: membership of the fieldtype in the three
structural marker types. -/
def isBreak (f : Field) : Bool := isSectionBreak f || isColumnBreak f || isTabBreak f

/-- `v.startsWith('_')` where `v` is a fieldname value; only string
fieldnames can start with an underscore (a non-string here would throw
in JS, which is unreachable for well-formed schemas). -/
def underscoreName (v : Value) : Bool :=
  match v with
  | .str s =>
    match s.data with
    | c :: _ => c = '_'
    | [] => false
  | _ => false

/-- A column of the virtual order tree: optional Column Break
fieldname plus the ordered fieldname references. -/
structure VCol where
  columnBreakFieldname : Option Value
  fieldnames : List Value
deriving Repr, DecidableEq

/-- A section of the virtual order tree. -/
structure VSec where
  fieldname : Value
  columns : List VCol
deriving Repr, DecidableEq

/-- A tab of the virtual order tree. -/
structure VTab where
  label : Value
  fieldname : Value
  sections : List VSec
deriving Repr, DecidableEq

/-! The parser (buildVirtualOrder) walks the flat list keeping cursors
to the currently open tab / section / column; the open cursors are
always the last tab, its last section, and that section's last column.
We represent the parser state as a zipper: fully closed tabs, plus an
optional open tab which holds closed sections plus an optional open
section, which holds closed columns plus the open column.  Whenever a
section is open its column cursor is open as well, exactly as in the
source (every branch that opens a section immediately opens a column in
it). -/

/-- Open section cursor: marker fieldname, closed columns, and the open
column (Column Break name and collected fieldnames). -/
structure PCur where
  secName : Value
  cols : List VCol
  curName : Option Value
  curFields : List Value
deriving Repr, DecidableEq

/-- Open tab cursor. -/
structure PTab where
  label : Value
  name : Value
  secs : List VSec
  cur : Option PCur
deriving Repr, DecidableEq

/-- Parser state: closed tabs plus the open tab cursor. -/
structure PState where
  tabs : List VTab
  cur : Option PTab
deriving Repr, DecidableEq

/-- Close the open column and section into a section value. -/
def closePCur (c : PCur) : VSec :=
  ⟨c.secName, c.cols ++ [⟨c.curName, c.curFields⟩]⟩

/-- Close an open tab into a tab value. -/
def closePTab (t : PTab) : VTab :=
  ⟨t.label, t.name, t.secs ++ (t.cur.map closePCur).toList⟩

/-- Close a parser state into the list of tabs of the tree. -/
def closePState (s : PState) : List VTab :=
  s.tabs ++ (s.cur.map closePTab).toList

/-- The fresh default tab (`label: 'Details', fieldname: '_default_tab'`). -/
def defaultPTab (cur : Option PCur) : PTab :=
  ⟨.str "Details", .str "_default_tab", [], cur⟩

/-- Tab label: `field.label || 'Details'`. -/
def tabLabel (f : Field) : Value :=
  if (jsGet f "label").truthy then jsGet f "label" else .str "Details"

/-- One step of buildVirtualOrder over a single descriptor, mirroring
the four branches of the source forEach body. -/
def buildStep (s : PState) (f : Field) : PState :=
  if isTabBreak f then
    -- close the current tab, open a new explicit tab with no sections
    { tabs := closePState s,
      cur := some ⟨tabLabel f, jsGet f "fieldname", [], none⟩ }
  else if isSectionBreak f then
    match s.cur with
    | none =>
        -- default tab created on demand, then the new section with its
        -- implicit first column
        { tabs := s.tabs,
          cur := some (defaultPTab (some ⟨jsGet f "fieldname", [], none, []⟩)) }
    | some t =>
        { tabs := s.tabs,
          cur := some { t with
            secs := t.secs ++ (t.cur.map closePCur).toList,
            cur := some ⟨jsGet f "fieldname", [], none, []⟩ } }
  else if isColumnBreak f then
    match s.cur with
    | none =>
        -- default tab and default section created on demand; the new
        -- explicit column becomes the first column of that section
        { tabs := s.tabs,
          cur := some (defaultPTab
            (some ⟨.str "_default_section", [], some (jsGet f "fieldname"), []⟩)) }
    | some t =>
        match t.cur with
        | none =>
            { tabs := s.tabs,
              cur := some { t with
                cur := some ⟨.str "_default_section", [], some (jsGet f "fieldname"), []⟩ } }
        | some c =>
            { tabs := s.tabs,
              cur := some { t with
                cur := some { c with
                  cols := c.cols ++ [⟨c.curName, c.curFields⟩],
                  curName := some (jsGet f "fieldname"),
                  curFields := [] } } }
  else
    match s.cur with
    | none =>
        { tabs := s.tabs,
          cur := some (defaultPTab
            (some ⟨.str "_default_section", [], none, [jsGet f "fieldname"]⟩)) }
    | some t =>
        match t.cur with
        | none =>
            { tabs := s.tabs,
              cur := some { t with
                cur := some ⟨.str "_default_section", [], none, [jsGet f "fieldname"]⟩ } }
        | some c =>
            { tabs := s.tabs,
              cur := some { t with
                cur := some { c with curFields := c.curFields ++ [jsGet f "fieldname"] } } }

/-- buildVirtualOrder: fold the step over the shadow list and close the
cursors.  (The source also resets `currentTab` to 0, which is kept in
the surrounding data-manager state.) -/
def buildVirtualOrder (shadow : List Field) : List VTab :=
  closePState (shadow.foldl buildStep ⟨[], none⟩)

/-- getFieldFromShadow: first descriptor whose fieldname is strictly
equal to the requested one. -/
def getFieldFromShadow (shadow : List Field) (fieldname : Value) : Option Field :=
  shadow.find? (fun f => Value.seq (jsGet f "fieldname") fieldname)

/-- Push the looked-up descriptor if it was found. -/
def emitLookup (shadow : List Field) (v : Value) : List Field :=
  (getFieldFromShadow shadow v).toList

/-- Resolve a list of fieldname references, keeping only the found
descriptors (dangling references are skipped). -/
def lookupAll (shadow : List Field) : List Value → List Field
  | [] => []
  | v :: vs => emitLookup shadow v ++ lookupAll shadow vs

/-- applyVirtualOrder, column part: Column Break descriptors are
emitted only for columns at index ≥ 1 with a truthy marker name, then
the column's data fields. -/
def flattenCols (shadow : List Field) : Nat → List VCol → List Field
  | _, [] => []
  | i, c :: rest =>
    (if 0 < i then
       (match c.columnBreakFieldname with
        | some v => if v.truthy then emitLookup shadow v else []
        | none => [])
     else [])
    ++ lookupAll shadow c.fieldnames
    ++ flattenCols shadow (i + 1) rest

/-- applyVirtualOrder, section part: the Section Break descriptor is
emitted when its fieldname is truthy and not a synthetic underscore
name. -/
def flattenSecs (shadow : List Field) : List VSec → List Field
  | [] => []
  | sec :: rest =>
    (if sec.fieldname.truthy && !underscoreName sec.fieldname then
       emitLookup shadow sec.fieldname
     else [])
    ++ flattenCols shadow 0 sec.columns
    ++ flattenSecs shadow rest

/-- applyVirtualOrder, tab part. -/
def flattenTabs (shadow : List Field) : List VTab → List Field
  | [] => []
  | t :: rest =>
    (if t.fieldname.truthy && !underscoreName t.fieldname then
       emitLookup shadow t.fieldname
     else [])
    ++ flattenSecs shadow t.sections
    ++ flattenTabs shadow rest

/-- The reordered flat list produced by applyVirtualOrder before it is
written back into shadowJSON. -/
def flattenTree (tabs : List VTab) (shadow : List Field) : List Field :=
  flattenTabs shadow tabs

/-- Render-structure column (buildStructure). -/
structure SCol where
  fields : List Field
  columnBreakFieldname : Value
  width : Value
deriving Repr, DecidableEq

/-- Render-structure section. -/
structure SSec where
  label : Value
  fieldname : Value
  collapsible : Value
  columns : List SCol
deriving Repr, DecidableEq

/-- Render-structure tab. -/
structure STab where
  label : Value
  fieldname : Value
  sections : List SSec
deriving Repr, DecidableEq

/-- buildStructure, column part: `columnBreakFieldname || null`, width
from the Column Break descriptor's `columns` property
(`cbField.columns || 'auto'`), resolved data fields. -/
def buildSCol (shadow : List Field) (vc : VCol) : SCol :=
  let cbf : Value :=
    match vc.columnBreakFieldname with
    | some v => if v.truthy then v else .null
    | none => .null
  let width : Value :=
    match vc.columnBreakFieldname with
    | some v =>
      if v.truthy then
        match getFieldFromShadow shadow v with
        | some cb => if (jsGet cb "columns").truthy then jsGet cb "columns" else .str "auto"
        | none => .str "auto"
      else .str "auto"
    | none => .str "auto"
  ⟨lookupAll shadow vc.fieldnames, cbf, width⟩

/-- buildStructure, section part: label and collapsible resolved from
the Section Break descriptor with `|| ''` and `|| 0` defaults. -/
def buildSSec (shadow : List Field) (vs : VSec) : SSec :=
  let lbl : Value :=
    match getFieldFromShadow shadow vs.fieldname with
    | some sf => if (jsGet sf "label").truthy then jsGet sf "label" else .str ""
    | none => .str ""
  let coll : Value :=
    match getFieldFromShadow shadow vs.fieldname with
    | some sf => if (jsGet sf "collapsible").truthy then jsGet sf "collapsible" else .num 0
    | none => .num 0
  ⟨lbl, vs.fieldname, coll, vs.columns.map (buildSCol shadow)⟩

/-- buildStructure, tab part. -/
def buildSTab (shadow : List Field) (vt : VTab) : STab :=
  ⟨vt.label, vt.fieldname, vt.sections.map (buildSSec shadow)⟩

/-- buildStructure: merge the virtual order tree with the shadow
store into the render tree. -/
def buildStructureFn (tabs : List VTab) (shadow : List Field) : List STab :=
  tabs.map (buildSTab shadow)

/-- JS bracket indexing with a possibly negative integer index:
out-of-range or negative access yields undefined (here: none). -/
def jsIndex {α : Type} (l : List α) (i : Int) : Option α :=
  if i < 0 then none else l[i.toNat]?

/-- Replace the element at a (valid, non-negative) integer index. -/
def setAtInt {α : Type} (l : List α) (i : Int) (x : α) : List α :=
  if i < 0 then l else l.set i.toNat x

/-- The start index actually used by `Array.prototype.splice`:
negative starts count from the end (clamped at 0), positive starts are
clamped at the length. -/
def spliceClamp (len : Nat) (start : Int) : Nat :=
  if start < 0 then ((len : Int) + start).toNat else min start.toNat len

/-- `const [x] = arr.splice(start, 1)`: remove at most one element at
the clamped start; when nothing is removed the extracted value is
undefined (none). -/
def spliceRemoveOne {α : Type} (l : List α) (start : Int) : Option α × List α :=
  let a := spliceClamp l.length start
  match l.drop a with
  | [] => (none, l)
  | x :: _ => (some x, l.take a ++ l.drop (a + 1))

/-- `arr.splice(start, 0, x)`: insert at the clamped start. -/
def spliceInsert {α : Type} (l : List α) (start : Int) (x : α) : List α :=
  let a := spliceClamp l.length start
  l.take a ++ x :: l.drop a

/-- The remove-then-insert move used by the validated move operations.
The none branch is unreachable there because the source index was
validated to be in range. -/
def listMoveSplice {α : Type} (l : List α) (fromIndex toIndex : Int) : List α :=
  match spliceRemoveOne l fromIndex with
  | (some x, rest) => spliceInsert rest toIndex x
  | (none, rest) => rest

/-- The mutable data-manager session state.  `structTabs` is
`this.structure.tabs`, rebuilt exactly where the source calls
buildStructure. -/
structure DMState where
  rawFields : List Field
  shadowJSON : List Field
  tabs : List VTab
  currentTab : Int
  structTabs : List STab
  changes : List (String × List (String × Value))
  hasUnsavedChanges : Bool
  hasOrderChanges : Bool
deriving Repr, DecidableEq

/-- The state after loadDocType parsed a field list: pristine copy,
shadow copy, virtual order and render structure built, no changes. -/
def initState (fields : List Field) : DMState :=
  let tabs := buildVirtualOrder fields
  { rawFields := fields
    shadowJSON := fields
    tabs := tabs
    currentTab := 0
    structTabs := buildStructureFn tabs fields
    changes := []
    hasUnsavedChanges := false
    hasOrderChanges := false }

/-- updateFieldProperty checkbox conversion: a boolean value is stored
as the number 1 or 0. -/
def coerceCheckbox : Value → Value
  | .bool b => .num (if b then 1 else 0)
  | v => v

/-- Mutate the first descriptor with the given fieldname (the object
returned by `find` is mutated in place in the source); none when no
descriptor matches. -/
def updateFirstField : List Field → Value → (Field → Field) → Option (List Field)
  | [], _, _ => none
  | f :: rest, fieldname, g =>
    if Value.seq (jsGet f "fieldname") fieldname then some (g f :: rest)
    else (updateFirstField rest fieldname g).map (f :: ·)

/-- Change-set write: `changes[fieldname][property] = value`, creating
the per-field map on demand. -/
def addChange (cs : List (String × List (String × Value))) (fn p : String) (v : Value) :
    List (String × List (String × Value)) :=
  match lookupKey cs fn with
  | some m => setKey cs fn (setKey m p v)
  | none => cs ++ [(fn, [(p, v)])]

/-- updateFieldProperty: reject unknown fieldnames, coerce booleans,
mutate the shadow descriptor, mirror the change into the change set,
set the dirty flag and rebuild the render structure. -/
def updateFieldProperty (s : DMState) (fieldname : Value) (property : String) (value : Value) :
    Bool × DMState :=
  let v := coerceCheckbox value
  match updateFirstField s.shadowJSON fieldname (fun f => jsSet f property v) with
  | none => (false, s)
  | some shadow2 =>
    (true, { s with
      shadowJSON := shadow2
      changes := addChange s.changes fieldname.toKey property v
      hasUnsavedChanges := true
      structTabs := buildStructureFn s.tabs shadow2 })

/-- moveSectionInCurrentTab: validate both indices against the current
tab's section count, reject no-op moves, otherwise splice. -/
def moveSectionInCurrentTab (s : DMState) (fromIndex toIndex : Int) : Bool × DMState :=
  match jsIndex s.tabs s.currentTab with
  | none => (false, s)
  | some tab =>
    let sections := tab.sections
    if fromIndex < 0 || (sections.length : Int) ≤ fromIndex ||
       toIndex < 0 || (sections.length : Int) ≤ toIndex ||
       fromIndex == toIndex then
      (false, s)
    else
      let tabs2 := setAtInt s.tabs s.currentTab
        { tab with sections := listMoveSplice sections fromIndex toIndex }
      (true, { s with
        tabs := tabs2
        hasOrderChanges := true
        structTabs := buildStructureFn tabs2 s.shadowJSON })

/-- findSectionInVirtualOrder: first section, scanning tabs in order,
whose fieldname strictly equals the requested name. -/
def findSectionInVirtualOrder : List VTab → String → Option VSec
  | [], _ => none
  | t :: rest, name =>
    match t.sections.find? (fun sec => Value.seq sec.fieldname (.str name)) with
    | some sec => some sec
    | none => findSectionInVirtualOrder rest name

/-- Replace the section found by findSectionInVirtualOrder (the source
mutates it in place through the returned reference). -/
def replaceSecInList : List VSec → String → VSec → Option (List VSec)
  | [], _, _ => none
  | sec :: rest, name, newSec =>
    if Value.seq sec.fieldname (.str name) then some (newSec :: rest)
    else (replaceSecInList rest name newSec).map (sec :: ·)

/-- Replace the first matching section across the tabs. -/
def replaceFirstSection : List VTab → String → VSec → List VTab
  | [], _, _ => []
  | t :: rest, name, newSec =>
    match replaceSecInList t.sections name newSec with
    | some secs => { t with sections := secs } :: rest
    | none => t :: replaceFirstSection rest name newSec

/-- fixColumnBreakAssignments, collection phase: every truthy Column
Break fieldname across the columns, in column order. -/
def collectColumnBreaks (cols : List VCol) : List Value :=
  cols.filterMap (fun c =>
    match c.columnBreakFieldname with
    | some v => if v.truthy then some v else none
    | none => none)

/-- fixColumnBreakAssignments, reassignment phase: column 0 loses its
marker reference; each later column takes the next pooled marker while
the pool lasts and otherwise keeps its previous reference. -/
def reassignBreaks : List VCol → List Value → Nat → List VCol
  | [], _, _ => []
  | c :: rest, pool, i =>
    if i = 0 then
      { c with columnBreakFieldname := none } :: reassignBreaks rest pool (i + 1)
    else
      match pool with
      | p :: ps => { c with columnBreakFieldname := some p } :: reassignBreaks rest ps (i + 1)
      | [] => c :: reassignBreaks rest [] (i + 1)

/-- fixColumnBreakAssignments. -/
def fixColumnBreakAssignments (cols : List VCol) : List VCol :=
  reassignBreaks cols (collectColumnBreaks cols) 0

/-- moveColumnInSection: find the section, validate indices, splice
the column, then restore the marker occupancy invariant. -/
def moveColumnInSection (s : DMState) (sectionFieldname : String) (fromIndex toIndex : Int) :
    Bool × DMState :=
  match findSectionInVirtualOrder s.tabs sectionFieldname with
  | none => (false, s)
  | some sec =>
    let columns := sec.columns
    if fromIndex < 0 || (columns.length : Int) ≤ fromIndex ||
       toIndex < 0 || (columns.length : Int) ≤ toIndex ||
       fromIndex == toIndex then
      (false, s)
    else
      let cols2 := fixColumnBreakAssignments (listMoveSplice columns fromIndex toIndex)
      let tabs2 := replaceFirstSection s.tabs sectionFieldname { sec with columns := cols2 }
      (true, { s with
        tabs := tabs2
        hasOrderChanges := true
        structTabs := buildStructureFn tabs2 s.shadowJSON })

/-- moveFieldInColumn: validate the column index and both field
indices, reject no-op moves, otherwise splice within the column. -/
def moveFieldInColumn (s : DMState) (sectionFieldname : String)
    (columnIndex fromFieldIndex toFieldIndex : Int) : Bool × DMState :=
  match findSectionInVirtualOrder s.tabs sectionFieldname with
  | none => (false, s)
  | some sec =>
    match jsIndex sec.columns columnIndex with
    | none => (false, s)
    | some col =>
      let fns := col.fieldnames
      if fromFieldIndex < 0 || (fns.length : Int) ≤ fromFieldIndex ||
         toFieldIndex < 0 || (fns.length : Int) ≤ toFieldIndex ||
         fromFieldIndex == toFieldIndex then
        (false, s)
      else
        let col2 := { col with fieldnames := listMoveSplice fns fromFieldIndex toFieldIndex }
        let sec2 := { sec with columns := setAtInt sec.columns columnIndex col2 }
        let tabs2 := replaceFirstSection s.tabs sectionFieldname sec2
        (true, { s with
          tabs := tabs2
          hasOrderChanges := true
          structTabs := buildStructureFn tabs2 s.shadowJSON })

/-- moveFieldToColumn: only the section and the two column references
are checked; the field indices are passed to splice unvalidated, so
out-of-range indices are clamped and a failed extraction inserts
undefined into the target column. -/
def moveFieldToColumn (s : DMState) (sectionFieldname : String)
    (fromColumnIndex fieldIndex toColumnIndex toFieldIndex : Int) : Bool × DMState :=
  match findSectionInVirtualOrder s.tabs sectionFieldname with
  | none => (false, s)
  | some sec =>
    match jsIndex sec.columns fromColumnIndex, jsIndex sec.columns toColumnIndex with
    | some fromCol, some toCol =>
      let r := spliceRemoveOne fromCol.fieldnames fieldIndex
      let movedName := r.1.getD Value.undefined
      let cols2 :=
        if fromColumnIndex == toColumnIndex then
          -- both column references alias the same array in the source
          setAtInt sec.columns fromColumnIndex
            { fromCol with fieldnames := spliceInsert r.2 toFieldIndex movedName }
        else
          setAtInt
            (setAtInt sec.columns fromColumnIndex { fromCol with fieldnames := r.2 })
            toColumnIndex
            { toCol with fieldnames := spliceInsert toCol.fieldnames toFieldIndex movedName }
      let tabs2 := replaceFirstSection s.tabs sectionFieldname { sec with columns := cols2 }
      (true, { s with
        tabs := tabs2
        hasOrderChanges := true
        structTabs := buildStructureFn tabs2 s.shadowJSON })
    | _, _ => (false, s)

/-- trackIdxChanges, map-building phase: fieldname (coerced to an
object key) to original index, later occurrences overwriting earlier
ones. -/
def buildIdxMap (raw : List Field) : List (String × Nat) :=
  raw.enum.foldl (fun m p => setKey m (jsGet p.2 "fieldname").toKey p.1) []

/-- trackIdxChanges, one field: record `changes[fieldname].idx` when
the original index exists and differs from the new index. -/
def trackIdxStep (m : List (String × Nat)) (cs : List (String × List (String × Value)))
    (i : Nat) (f : Field) : List (String × List (String × Value)) :=
  match lookupKey m (jsGet f "fieldname").toKey with
  | some orig => if orig ≠ i then addChange cs (jsGet f "fieldname").toKey "idx" (.num i) else cs
  | none => cs

/-- trackIdxChanges over the whole (already reordered) shadow list. -/
def trackIdxChanges (raw shadow : List Field)
    (cs : List (String × List (String × Value))) : List (String × List (String × Value)) :=
  shadow.enum.foldl (fun acc p => trackIdxStep (buildIdxMap raw) acc p.1 p.2) cs

/-- applyVirtualOrder: flatten the virtual order against the current
shadow store, write the result back as the new shadowJSON, and track
index changes against the pristine list.  (The source does not rebuild
the render structure here.) -/
def applyVirtualOrderOp (s : DMState) : DMState :=
  let reordered := flattenTree s.tabs s.shadowJSON
  { s with
    shadowJSON := reordered
    changes := trackIdxChanges s.rawFields reordered s.changes }

/-- revertChanges: reset the shadow store to the pristine list,
rebuild the virtual order and render structure from it, clear the
change set and both dirty flags. -/
def revertChangesOp (s : DMState) : DMState :=
  let tabs := buildVirtualOrder s.rawFields
  { s with
    shadowJSON := s.rawFields
    tabs := tabs
    currentTab := 0
    structTabs := buildStructureFn tabs s.rawFields
    changes := []
    hasUnsavedChanges := false
    hasOrderChanges := false }

/-- clearChanges. -/
def clearChangesOp (s : DMState) : DMState :=
  { s with changes := [], hasUnsavedChanges := false, hasOrderChanges := false }

/-- setCurrentTab. -/
def setCurrentTab (s : DMState) (i : Int) : Bool × DMState :=
  if 0 ≤ i && i < (s.structTabs.length : Int) then (true, { s with currentTab := i })
  else (false, s)

/-- A user-level command against the data manager. -/
inductive Cmd where
  | update (fieldname : Value) (property : String) (value : Value)
  | moveSec (fromIndex toIndex : Int)
  | moveCol (sectionFieldname : String) (fromIndex toIndex : Int)
  | moveFieldIn (sectionFieldname : String) (columnIndex fromFieldIndex toFieldIndex : Int)
  | moveFieldTo (sectionFieldname : String)
      (fromColumnIndex fieldIndex toColumnIndex toFieldIndex : Int)
  | applyOrder
  | setTab (i : Int)
  | clearAll
  | revertAll
deriving Repr, DecidableEq

/-- Run one command (the returned success booleans are for the
caller; the state transition keeps the post-state either way). -/
def stepCmd (s : DMState) : Cmd → DMState
  | .update fn p v => (updateFieldProperty s fn p v).2
  | .moveSec a b => (moveSectionInCurrentTab s a b).2
  | .moveCol n a b => (moveColumnInSection s n a b).2
  | .moveFieldIn n a b c => (moveFieldInColumn s n a b c).2
  | .moveFieldTo n a b c d => (moveFieldToColumn s n a b c d).2
  | .applyOrder => applyVirtualOrderOp s
  | .setTab i => (setCurrentTab s i).2
  | .clearAll => clearChangesOp s
  | .revertAll => revertChangesOp s

/-- Run a command sequence. -/
def runCmds (s : DMState) (cmds : List Cmd) : DMState := cmds.foldl stepCmd s

/-- `parseInt(x) || 0` as applied to the width values that occur here:
numbers pass through, strings parse their leading digits, everything
else (including 'auto') yields 0. -/
def jsParseIntOr0 : Value → Int
  | .num n => n
  | .str s =>
    match (String.mk (s.toList.takeWhile Char.isDigit)).toNat? with
    | some n => (n : Int)
    | none => 0
  | _ => 0

/-- calculateOtherColumnsWidth: total explicit width over the columns
other than the one being changed, counting only indices ≥ 1 with a
positive parsed width. -/
def calcOtherColumnsWidth (sec : SSec) (excludeColumnIndex : Int) : Int :=
  sec.columns.enum.foldl (fun total p =>
    if (p.1 : Int) ≠ excludeColumnIndex && 0 < p.1 then
      (let w := jsParseIntOr0 p.2.width
       if 0 < w then total + w else total)
    else total) 0

/-- findSectionByFieldname (visual renderer): search only the current
tab of the render structure. -/
def findSectionByFieldname (s : DMState) (name : String) : Option SSec :=
  match jsIndex s.structTabs s.currentTab with
  | none => none
  | some tab => tab.sections.find? (fun sec => Value.seq sec.fieldname (.str name))

/-- visual_renderer.js onColumnWidthChange: no-op without a Column
Break reference; when the section is found and the new width is
positive, reject totals over 12 reporting the offending total (second
component), otherwise forward to updateFieldProperty. -/
def visualOnColumnWidthChange (s : DMState) (column : SCol) (columnIndex : Int)
    (newWidth : Int) (sectionFieldname : String) : DMState × Option Int :=
  if !column.columnBreakFieldname.truthy then (s, none)
  else
    match findSectionByFieldname s sectionFieldname with
    | some sec =>
      if 0 < newWidth then
        let newTotal := calcOtherColumnsWidth sec columnIndex + newWidth
        if 12 < newTotal then (s, some newTotal)
        else ((updateFieldProperty s column.columnBreakFieldname "columns" (.num newWidth)).2, none)
      else ((updateFieldProperty s column.columnBreakFieldname "columns" (.num newWidth)).2, none)
    | none => ((updateFieldProperty s column.columnBreakFieldname "columns" (.num newWidth)).2, none)

/-- properties_panel.js onColumnWidthChange: no-op without a selected
column's Column Break field, otherwise forward to updateFieldProperty
with no width-budget validation at all. -/
def panelOnColumnWidthChange (s : DMState) (columnBreakField : Option Field)
    (newWidth : Int) : DMState :=
  match columnBreakField with
  | none => s
  | some cb => (updateFieldProperty s (jsGet cb "fieldname") "columns" (.num newWidth)).2

/-! Specification-side predicates used to state the claims. -/

/-- Whether the parser state has an open section (and hence an open
column) cursor. -/
def pSecOpen (s : PState) : Bool :=
  match s.cur with
  | some t => t.cur.isSome
  | none => false

/-- A usable marker name for Tab and Section Breaks: a nonempty string
that does not begin with an underscore (underscore names are reserved
for the synthetic default containers and are skipped by
applyVirtualOrder). -/
def strNameOk : Value → Bool
  | .str n => n ≠ "" && !underscoreName (.str n)
  | _ => false

/-- Well-formed marker sequencing, threading whether a section (and
column) cursor is open: Tab and Section Breaks carry usable names, and
a Column Break only occurs while a section is open, with a truthy
fieldname. -/
def markersOkB : Bool → List Field → Bool
  | _, [] => true
  | secOpen, f :: fs =>
    if isTabBreak f then strNameOk (jsGet f "fieldname") && markersOkB false fs
    else if isSectionBreak f then strNameOk (jsGet f "fieldname") && markersOkB true fs
    else if isColumnBreak f then
      secOpen && (jsGet f "fieldname").truthy && markersOkB true fs
    else markersOkB true fs

/-- Pairwise-distinct fieldnames (under JS strict equality). -/
def namesDistinct : List Field → Bool
  | [] => true
  | f :: rest =>
    rest.all (fun g => !Value.seq (jsGet g "fieldname") (jsGet f "fieldname")) &&
    namesDistinct rest

/-- A Field Descriptor List with well-formed markers and unique
fieldnames. -/
def wellFormed (L : List Field) : Bool :=
  namesDistinct L && markersOkB false L

/-- A column that carries exactly one (truthy) Column Break
reference. -/
def markerOfB : Option Value → Bool
  | some v => v.truthy
  | none => false

/-- The column-marker occupancy invariant of one section: column 0 has
no Column Break reference, every later column has exactly one. -/
def colInvB (cols : List VCol) : Bool :=
  match cols with
  | [] => true
  | c :: rest =>
    (c.columnBreakFieldname == none) &&
    rest.all (fun d => markerOfB d.columnBreakFieldname)

/-- The column-marker occupancy invariant over the whole tree. -/
def treeInvB (tabs : List VTab) : Bool :=
  tabs.all (fun t => t.sections.all (fun sec => colInvB sec.columns))

/-- All fieldname references stored in the columns of the tree, in
tree order. -/
def colsFieldnames : List VCol → List Value
  | [] => []
  | c :: rest => c.fieldnames ++ colsFieldnames rest

/-- All column fieldname references of a section list, in order. -/
def secsFieldnames : List VSec → List Value
  | [] => []
  | sec :: rest => colsFieldnames sec.columns ++ secsFieldnames rest

/-- All column fieldname references of a tab list, in order. -/
def tabsFieldnames : List VTab → List Value
  | [] => []
  | t :: rest => secsFieldnames t.sections ++ tabsFieldnames rest

/-- The index-validity check of moveSectionInCurrentTab, as a
decidable predicate on the state and arguments. -/
def validSectionMoveB (s : DMState) (fromIndex toIndex : Int) : Bool :=
  match jsIndex s.tabs s.currentTab with
  | none => false
  | some tab =>
    !(fromIndex < 0 || (tab.sections.length : Int) ≤ fromIndex ||
      toIndex < 0 || (tab.sections.length : Int) ≤ toIndex ||
      fromIndex == toIndex)

/-- The index-validity check of moveColumnInSection. -/
def validColumnMoveB (s : DMState) (name : String) (fromIndex toIndex : Int) : Bool :=
  match findSectionInVirtualOrder s.tabs name with
  | none => false
  | some sec =>
    !(fromIndex < 0 || (sec.columns.length : Int) ≤ fromIndex ||
      toIndex < 0 || (sec.columns.length : Int) ≤ toIndex ||
      fromIndex == toIndex)

/-- The index-validity check of moveFieldInColumn. -/
def validFieldInMoveB (s : DMState) (name : String)
    (columnIndex fromFieldIndex toFieldIndex : Int) : Bool :=
  match findSectionInVirtualOrder s.tabs name with
  | none => false
  | some sec =>
    match jsIndex sec.columns columnIndex with
    | none => false
    | some col =>
      !(fromFieldIndex < 0 || (col.fieldnames.length : Int) ≤ fromFieldIndex ||
        toFieldIndex < 0 || (col.fieldnames.length : Int) ≤ toFieldIndex ||
        fromFieldIndex == toFieldIndex)

/-- The only presence checks moveFieldToColumn performs: the section
and the two column references exist.  Field indices are not checked by
the source. -/
def fieldToColumnsPresentB (s : DMState) (name : String)
    (fromColumnIndex toColumnIndex : Int) : Bool :=
  match findSectionInVirtualOrder s.tabs name with
  | none => false
  | some sec =>
    (jsIndex sec.columns fromColumnIndex).isSome &&
    (jsIndex sec.columns toColumnIndex).isSome

/-- Change-set lookup: the recorded value for one field and
property. -/
def lookupKey2 (cs : List (String × List (String × Value))) (fn p : String) : Option Value :=
  match lookupKey cs fn with
  | some m => lookupKey m p
  | none => none

/-- At the moment applyVirtualOrder would run on this state, the field
with the given change-set key either is unknown to the pristine index
map or sits at its pristine index in the flattened list, so
trackIdxChanges records nothing for it. -/
def idxStableB (fnKey : String) (s : DMState) : Bool :=
  (flattenTree s.tabs s.shadowJSON).enum.all (fun p =>
    if (jsGet p.2 "fieldname").toKey == fnKey then
      match lookupKey (buildIdxMap s.rawFields) fnKey with
      | none => true
      | some j => j == p.1
    else true)

/-- The per-command condition under which a command cannot create a
change-set entry for the given key: an update either targets a
different key or fails to find its field; an applyVirtualOrder runs
while the field is index-stable; every other command never writes the
change set. -/
def untouchedHeadB (fnKey : String) (s : DMState) : Cmd → Bool
  | .update target p v =>
    target.toKey != fnKey ||
    (updateFirstField s.shadowJSON target (fun f => jsSet f p (coerceCheckbox v))).isNone
  | .applyOrder => idxStableB fnKey s
  | _ => true

/-- Along this command sequence the field with the given change-set
key is never the target of a successful updateFieldProperty, and at
every applyVirtualOrder its resolved index agrees with its pristine
index. -/
def untouchedB (fnKey : String) : DMState → List Cmd → Bool
  | _, [] => true
  | s, c :: cs => untouchedHeadB fnKey s c && untouchedB fnKey (stepCmd s c) cs

/-- The well-formedness condition markersOkB imposes on the head
descriptor, given whether a section is currently open. -/
def markersOkHead (secOpen : Bool) (f : Field) : Bool :=
  if isTabBreak f then strNameOk (jsGet f "fieldname")
  else if isSectionBreak f then strNameOk (jsGet f "fieldname")
  else if isColumnBreak f then secOpen && (jsGet f "fieldname").truthy
  else true

/-! Concrete inputs used for scenarios, counterexamples and
witnesses. -/

/-- A minimal descriptor with the given fieldname, fieldtype and extra
properties. -/
def mkF (name ft : String) (extra : List (String × Value)) : Field :=
  [("fieldname", Value.str name), ("fieldtype", Value.str ft)] ++ extra

/-- The column-to-first reassignment scenario: one section with
columns `[col0(no marker, f1 f2), col1(m1, width 4, f3),
col2(m2, width 6, f4)]`. -/
def fieldsC3 : List Field :=
  [mkF "s" "Section Break" [], mkF "f1" "Data" [], mkF "f2" "Data" [],
   mkF "m1" "Column Break" [("columns", Value.num 4)], mkF "f3" "Data" [],
   mkF "m2" "Column Break" [("columns", Value.num 6)], mkF "f4" "Data" []]

/-- Width-budget scenario: column 1 has explicit width 10, column 2 is
auto. -/
def fieldsC4 : List Field :=
  [mkF "s" "Section Break" [], mkF "f1" "Data" [],
   mkF "c1" "Column Break" [("columns", Value.num 10)], mkF "f2" "Data" [],
   mkF "c2" "Column Break" [], mkF "f3" "Data" []]

/-- Two-column section used for the move-rejection scenarios. -/
def fieldsC5 : List Field :=
  [mkF "s" "Section Break" [], mkF "f1" "Data" [],
   mkF "c1" "Column Break" [], mkF "f2" "Data" []]

/-- Single data field with a label, used for the change-set
scenarios. -/
def fieldsC6 : List Field :=
  [mkF "f1" "Data" [("label", Value.str "A")]]

/-! Frame lemmas: which state components each operation can touch. -/

theorem updateFieldProperty_frame (s : DMState) (fn : Value) (p : String) (v : Value) :
    (updateFieldProperty s fn p v).2.rawFields = s.rawFields ∧
    (updateFieldProperty s fn p v).2.tabs = s.tabs ∧
    (updateFieldProperty s fn p v).2.currentTab = s.currentTab := by
  unfold updateFieldProperty
  cases h : updateFirstField s.shadowJSON fn (fun f => jsSet f p (coerceCheckbox v)) <;>
    simp [h]

theorem moveSectionInCurrentTab_frame (s : DMState) (a b : Int) :
    (moveSectionInCurrentTab s a b).2.rawFields = s.rawFields ∧
    (moveSectionInCurrentTab s a b).2.shadowJSON = s.shadowJSON ∧
    (moveSectionInCurrentTab s a b).2.changes = s.changes ∧
    (moveSectionInCurrentTab s a b).2.currentTab = s.currentTab := by
  unfold moveSectionInCurrentTab
  split
  · exact ⟨rfl, rfl, rfl, rfl⟩
  · dsimp only
    split <;> exact ⟨rfl, rfl, rfl, rfl⟩

theorem moveColumnInSection_frame (s : DMState) (n : String) (a b : Int) :
    (moveColumnInSection s n a b).2.rawFields = s.rawFields ∧
    (moveColumnInSection s n a b).2.shadowJSON = s.shadowJSON ∧
    (moveColumnInSection s n a b).2.changes = s.changes ∧
    (moveColumnInSection s n a b).2.currentTab = s.currentTab := by
  unfold moveColumnInSection
  split
  · exact ⟨rfl, rfl, rfl, rfl⟩
  · dsimp only
    split <;> exact ⟨rfl, rfl, rfl, rfl⟩

theorem moveFieldInColumn_frame (s : DMState) (n : String) (a b c : Int) :
    (moveFieldInColumn s n a b c).2.rawFields = s.rawFields ∧
    (moveFieldInColumn s n a b c).2.shadowJSON = s.shadowJSON ∧
    (moveFieldInColumn s n a b c).2.changes = s.changes ∧
    (moveFieldInColumn s n a b c).2.currentTab = s.currentTab := by
  unfold moveFieldInColumn
  split
  · exact ⟨rfl, rfl, rfl, rfl⟩
  · split
    · exact ⟨rfl, rfl, rfl, rfl⟩
    · dsimp only
      split <;> exact ⟨rfl, rfl, rfl, rfl⟩

theorem moveFieldToColumn_frame (s : DMState) (n : String) (a b c d : Int) :
    (moveFieldToColumn s n a b c d).2.rawFields = s.rawFields ∧
    (moveFieldToColumn s n a b c d).2.shadowJSON = s.shadowJSON ∧
    (moveFieldToColumn s n a b c d).2.changes = s.changes ∧
    (moveFieldToColumn s n a b c d).2.currentTab = s.currentTab := by
  unfold moveFieldToColumn
  split
  · exact ⟨rfl, rfl, rfl, rfl⟩
  · split
    · exact ⟨rfl, rfl, rfl, rfl⟩
    · exact ⟨rfl, rfl, rfl, rfl⟩

theorem setCurrentTab_frame (s : DMState) (i : Int) :
    (setCurrentTab s i).2.rawFields = s.rawFields ∧
    (setCurrentTab s i).2.shadowJSON = s.shadowJSON ∧
    (setCurrentTab s i).2.changes = s.changes := by
  unfold setCurrentTab
  split <;> exact ⟨rfl, rfl, rfl⟩

theorem stepCmd_rawFields (s : DMState) (c : Cmd) :
    (stepCmd s c).rawFields = s.rawFields := by
  cases c with
  | update fn p v => exact (updateFieldProperty_frame s fn p v).1
  | moveSec a b => exact (moveSectionInCurrentTab_frame s a b).1
  | moveCol n a b => exact (moveColumnInSection_frame s n a b).1
  | moveFieldIn n a b c => exact (moveFieldInColumn_frame s n a b c).1
  | moveFieldTo n a b c d => exact (moveFieldToColumn_frame s n a b c d).1
  | applyOrder => rfl
  | setTab i => exact (setCurrentTab_frame s i).1
  | clearAll => rfl
  | revertAll => rfl

theorem runCmds_rawFields (cmds : List Cmd) : ∀ s : DMState,
    (runCmds s cmds).rawFields = s.rawFields := by
  induction cmds with
  | nil => intro s; rfl
  | cons c cs ih =>
    intro s
    calc (runCmds (stepCmd s c) cs).rawFields = (stepCmd s c).rawFields := ih (stepCmd s c)
    _ = s.rawFields := stepCmd_rawFields s c

/-- Claim C8: every move operation, successful or rejected, leaves the
shadowJSON array (and hence every field descriptor stored in it)
unchanged; only the virtual order tree, the derived render structure
and the dirty flags may change. -/
theorem claim_moves_never_touch_shadow :
    (∀ (s : DMState) (a b : Int),
       (moveSectionInCurrentTab s a b).2.shadowJSON = s.shadowJSON) ∧
    (∀ (s : DMState) (n : String) (a b : Int),
       (moveColumnInSection s n a b).2.shadowJSON = s.shadowJSON) ∧
    (∀ (s : DMState) (n : String) (a b c : Int),
       (moveFieldInColumn s n a b c).2.shadowJSON = s.shadowJSON) ∧
    (∀ (s : DMState) (n : String) (a b c d : Int),
       (moveFieldToColumn s n a b c d).2.shadowJSON = s.shadowJSON) :=
  ⟨fun s a b => (moveSectionInCurrentTab_frame s a b).2.1,
   fun s n a b => (moveColumnInSection_frame s n a b).2.1,
   fun s n a b c => (moveFieldInColumn_frame s n a b c).2.1,
   fun s n a b c d => (moveFieldToColumn_frame s n a b c d).2.1⟩

/-- Claim C7: after any command sequence, revertChanges restores the
entire session to the freshly loaded state: the shadow store equals
the pristine list, the virtual order tree is exactly what parsing the
pristine list yields, the change set is empty and no dirty flag is
set. -/
theorem claim_revert_restores_pristine (L : List Field) (cmds : List Cmd) :
    revertChangesOp (runCmds (initState L) cmds) = initState L := by
  have key : ∀ s2 : DMState, s2.rawFields = L → revertChangesOp s2 = initState L := by
    intro s2 h
    simp [revertChangesOp, initState, h]
  exact key _ (runCmds_rawFields cmds (initState L))

/-- Claim C3, counterexample: on the scenario section, the move from
index 2 to index 0 succeeds but does NOT yield the claimed columns
`[col0(no marker, f4), col1(m1, f1 f2), col2(m2, f3)]`: the marker
pool is collected in post-splice column order, so column 1 receives m2
and column 2 receives m1. -/
theorem claim_column_to_first_counterexample :
    (moveColumnInSection (initState fieldsC3) "s" 2 0).1 = true ∧
    findSectionInVirtualOrder (moveColumnInSection (initState fieldsC3) "s" 2 0).2.tabs "s" ≠
      some ⟨Value.str "s",
        [⟨none, [Value.str "f4"]⟩,
         ⟨some (Value.str "m1"), [Value.str "f1", Value.str "f2"]⟩,
         ⟨some (Value.str "m2"), [Value.str "f3"]⟩]⟩ := by
  refine ⟨by decide, by decide⟩

/-- Claim C3, amended: `moveColumnInSection(s, 2, 0)` on the scenario
section succeeds and yields `[col0(no marker, f4), col1(m2, f1 f2),
col2(m1, f3)]` — the marker identities are pooled in post-splice
column order, so the widths riding on the markers become 6 for column
1 and 4 for column 2 in the rebuilt render structure. -/
theorem claim_column_to_first_amended :
    (moveColumnInSection (initState fieldsC3) "s" 2 0).1 = true ∧
    findSectionInVirtualOrder (moveColumnInSection (initState fieldsC3) "s" 2 0).2.tabs "s" =
      some ⟨Value.str "s",
        [⟨none, [Value.str "f4"]⟩,
         ⟨some (Value.str "m2"), [Value.str "f1", Value.str "f2"]⟩,
         ⟨some (Value.str "m1"), [Value.str "f3"]⟩]⟩ ∧
    (moveColumnInSection (initState fieldsC3) "s" 2 0).2.structTabs.map
        (fun t => t.sections.map (fun sec => sec.columns.map SCol.width)) =
      [[[Value.str "auto", Value.num 6, Value.num 4]]] := by
  refine ⟨by decide, by decide, by decide⟩

/-- Claim C5, counterexample: moveFieldToColumn with the out-of-range
field index 5 (the source column holds one field) is not rejected: it
returns true and mutates the tree (an undefined reference is spliced
into the target column). -/
theorem claim_invalid_move_counterexample :
    (moveFieldToColumn (initState fieldsC5) "s" 0 5 1 0).1 = true ∧
    (moveFieldToColumn (initState fieldsC5) "s" 0 5 1 0).2.tabs ≠ (initState fieldsC5).tabs := by
  refine ⟨by decide, by decide⟩

/-- Claim C4, counterexample: a width edit issued through the
properties-panel handler is applied with no budget validation: with
column 1 already at explicit width 10, setting column 2 to 5 (total
15 > 12) mutates the Column Break descriptor and leaves the section
over budget. -/
theorem claim_width_budget_counterexample :
    ((getFieldFromShadow
        (panelOnColumnWidthChange (initState fieldsC4) (some (mkF "c2" "Column Break" [])) 5).shadowJSON
        (Value.str "c2")).map (fun f => jsGet f "columns") = some (Value.num 5)) ∧
    ((findSectionByFieldname
        (panelOnColumnWidthChange (initState fieldsC4) (some (mkF "c2" "Column Break" [])) 5) "s").map
        (fun sec => calcOtherColumnsWidth sec (-1)) = some 15) := by
  refine ⟨by decide, by decide⟩

/-- Claim C6, counterexample: updateFieldProperty that rewrites a
property with its pristine value still records a change-set entry,
although neither the resolved order nor any property differs from the
pristine list. -/
theorem claim_diff_minimality_counterexample :
    (lookupKey (runCmds (initState fieldsC6)
        [Cmd.update (Value.str "f1") "label" (Value.str "A")]).changes "f1" =
      some [("label", Value.str "A")]) ∧
    ((runCmds (initState fieldsC6)
        [Cmd.update (Value.str "f1") "label" (Value.str "A")]).shadowJSON =
      (runCmds (initState fieldsC6)
        [Cmd.update (Value.str "f1") "label" (Value.str "A")]).rawFields) ∧
    (flattenTree
        (runCmds (initState fieldsC6) [Cmd.update (Value.str "f1") "label" (Value.str "A")]).tabs
        (runCmds (initState fieldsC6) [Cmd.update (Value.str "f1") "label" (Value.str "A")]).shadowJSON =
      (runCmds (initState fieldsC6)
        [Cmd.update (Value.str "f1") "label" (Value.str "A")]).rawFields) := by
  refine ⟨by decide, by decide, by decide⟩

/-! Key-value lemmas for the change set and object updates. -/

theorem lookupKey_setKey_self {α : Type} (l : List (String × α)) (k : String) (v : α) :
    lookupKey (setKey l k v) k = some v := by
  induction l with
  | nil => simp [setKey, lookupKey]
  | cons e rest ih =>
    by_cases h : e.1 = k
    · simp [setKey, h, lookupKey]
    · simp [setKey, h, lookupKey, ih]

theorem lookupKey_setKey_ne {α : Type} (l : List (String × α)) (k k2 : String) (v : α)
    (h : k ≠ k2) : lookupKey (setKey l k v) k2 = lookupKey l k2 := by
  induction l with
  | nil => simp [setKey, lookupKey, h]
  | cons e rest ih =>
    by_cases he : e.1 = k
    · simp [setKey, he, lookupKey, h]
    · simp [setKey, he, lookupKey, ih]

theorem lookupKey_append_none {α : Type} (l1 l2 : List (String × α)) (k : String)
    (h : lookupKey l1 k = none) : lookupKey (l1 ++ l2) k = lookupKey l2 k := by
  induction l1 with
  | nil => rfl
  | cons e rest ih =>
    by_cases he : e.1 = k
    · simp [lookupKey, he] at h
    · simp only [lookupKey, he, if_false, List.cons_append] at h ⊢
      simp [lookupKey, he]
      exact ih h

theorem lookupKey2_addChange_self (cs : List (String × List (String × Value)))
    (fn p : String) (v : Value) : lookupKey2 (addChange cs fn p v) fn p = some v := by
  cases h : lookupKey cs fn with
  | some m => simp [addChange, h, lookupKey2, lookupKey_setKey_self]
  | none => simp [addChange, h, lookupKey2, lookupKey_append_none cs _ fn h, lookupKey]

theorem jsGet_eq_lookupKey (f : Field) (k : String) :
    jsGet f k = (match lookupKey f k with | some v => v | none => .undefined) := by
  induction f with
  | nil => rfl
  | cons e rest ih =>
    by_cases h : e.1 = k
    · simp [jsGet, lookupKey, List.find?, h]
    · simp only [jsGet, lookupKey, List.find?, h, if_false] at ih ⊢
      have hb : (e.1 == k) = false := by simp [h]
      rw [hb]
      exact ih

theorem jsGet_jsSet_self (f : Field) (k : String) (v : Value) :
    jsGet (jsSet f k v) k = v := by
  unfold jsSet
  rw [jsGet_eq_lookupKey, lookupKey_setKey_self]

theorem updateFirstField_pre_post (pre post : List Field) (f : Field) (fname : Value)
    (g : Field → Field)
    (hpre : ∀ x ∈ pre, Value.seq (jsGet x "fieldname") fname = false)
    (hf : Value.seq (jsGet f "fieldname") fname = true) :
    updateFirstField (pre ++ f :: post) fname g = some (pre ++ g f :: post) := by
  induction pre with
  | nil => simp [updateFirstField, hf]
  | cons x rest ih =>
    have hx : Value.seq (jsGet x "fieldname") fname = false := hpre x (by simp)
    have ih2 := ih (fun y hy => hpre y (by simp [hy]))
    simp [updateFirstField, hx, ih2]

/-- Claim C10: for a fieldname present in the shadow store (decomposed
as the first matching descriptor f), updateFieldProperty with a
boolean value succeeds and stores the number 1 (for true) or 0 (for
false) — never a boolean — both in the shadow descriptor and in the
change-set entry for that fieldname and property. -/
theorem claim_boolean_coercion (s : DMState) (fieldname : Value) (property : String) (b : Bool)
    (pre post : List Field) (f : Field)
    (hshadow : s.shadowJSON = pre ++ f :: post)
    (hpre : ∀ x ∈ pre, Value.seq (jsGet x "fieldname") fieldname = false)
    (hf : Value.seq (jsGet f "fieldname") fieldname = true) :
    (updateFieldProperty s fieldname property (.bool b)).1 = true ∧
    (updateFieldProperty s fieldname property (.bool b)).2.shadowJSON =
      pre ++ jsSet f property (.num (if b then 1 else 0)) :: post ∧
    jsGet (jsSet f property (.num (if b then 1 else 0))) property = .num (if b then 1 else 0) ∧
    lookupKey2 (updateFieldProperty s fieldname property (.bool b)).2.changes
      fieldname.toKey property = some (.num (if b then 1 else 0)) := by
  have hup : updateFirstField s.shadowJSON fieldname
      (fun x => jsSet x property (.num (if b then 1 else 0))) =
      some (pre ++ jsSet f property (.num (if b then 1 else 0)) :: post) := by
    rw [hshadow]
    exact updateFirstField_pre_post pre post f fieldname _ hpre hf
  refine ⟨?_, ?_, jsGet_jsSet_self f property _, ?_⟩
  · simp [updateFieldProperty, coerceCheckbox, hup]
  · simp [updateFieldProperty, coerceCheckbox, hup]
  · simp [updateFieldProperty, coerceCheckbox, hup, lookupKey2_addChange_self]

/-- Claim C10 witness: a concrete boolean property edit on the loaded
single-field list stores the number 1 in the descriptor and in the
change set. -/
theorem claim_boolean_coercion_witness :
    (updateFieldProperty (initState fieldsC6) (Value.str "f1") "reqd" (Value.bool true)).1 = true ∧
    (updateFieldProperty (initState fieldsC6) (Value.str "f1") "reqd" (Value.bool true)).2.shadowJSON =
      [] ++ jsSet (mkF "f1" "Data" [("label", Value.str "A")]) "reqd" (Value.num 1) :: [] ∧
    jsGet (jsSet (mkF "f1" "Data" [("label", Value.str "A")]) "reqd" (Value.num 1)) "reqd" =
      Value.num 1 ∧
    lookupKey2 (updateFieldProperty (initState fieldsC6) (Value.str "f1") "reqd"
      (Value.bool true)).2.changes (Value.str "f1").toKey "reqd" = some (Value.num 1) :=
  claim_boolean_coercion (initState fieldsC6) (Value.str "f1") "reqd" true [] []
    (mkF "f1" "Data" [("label", Value.str "A")]) rfl (by simp) (by decide)

/-- Claim C4, amended: only the visual renderer handler enforces the
12-slot budget.  When the edited column carries a Column Break
reference, the section is found in the current tab of the render
structure, and the new width is positive: a decision-time total over
12 is rejected — the state is returned unchanged and the offending
total is reported — while an accepted edit has decision-time total at
most 12 and is forwarded to updateFieldProperty.  The properties-panel
handler forwards every edit to updateFieldProperty unconditionally. -/
theorem claim_width_budget_amended :
    (∀ (s : DMState) (column : SCol) (columnIndex newWidth : Int) (name : String) (sec : SSec),
      column.columnBreakFieldname.truthy = true →
      findSectionByFieldname s name = some sec →
      0 < newWidth →
      (12 < calcOtherColumnsWidth sec columnIndex + newWidth →
        visualOnColumnWidthChange s column columnIndex newWidth name =
          (s, some (calcOtherColumnsWidth sec columnIndex + newWidth))) ∧
      (calcOtherColumnsWidth sec columnIndex + newWidth ≤ 12 →
        visualOnColumnWidthChange s column columnIndex newWidth name =
          ((updateFieldProperty s column.columnBreakFieldname "columns" (.num newWidth)).2,
            none))) ∧
    (∀ (s : DMState) (cb : Field) (newWidth : Int),
      panelOnColumnWidthChange s (some cb) newWidth =
        (updateFieldProperty s (jsGet cb "fieldname") "columns" (.num newWidth)).2) := by
  constructor
  · intro s column columnIndex newWidth name sec htr hfind hpos
    constructor
    · intro hover
      simp [visualOnColumnWidthChange, htr, hfind, hpos, hover]
    · intro hok
      have hnot : ¬ (12 < calcOtherColumnsWidth sec columnIndex + newWidth) := by omega
      simp [visualOnColumnWidthChange, htr, hfind, hpos, hnot]
  · intro s cb newWidth
    rfl

/-- Claim C4 amended witness: on the loaded scenario list, the visual
renderer handler rejects setting column 2 to width 5 (other columns
total 10, offending total 15) and leaves the state unchanged. -/
theorem claim_width_budget_amended_witness :
    visualOnColumnWidthChange (initState fieldsC4) ⟨[], Value.str "c2", Value.str "auto"⟩ 2 5 "s" =
      (initState fieldsC4, some 15) :=
  (claim_width_budget_amended.1 (initState fieldsC4) ⟨[], Value.str "c2", Value.str "auto"⟩ 2 5 "s"
    ⟨Value.str "", Value.str "s", Value.num 0,
      [⟨[[("fieldname", Value.str "f1"), ("fieldtype", Value.str "Data")]],
        Value.null, Value.str "auto"⟩,
       ⟨[[("fieldname", Value.str "f2"), ("fieldtype", Value.str "Data")]],
        Value.str "c1", Value.num 10⟩,
       ⟨[[("fieldname", Value.str "f3"), ("fieldtype", Value.str "Data")]],
        Value.str "c2", Value.str "auto"⟩]⟩
    (by decide) (by decide) (by decide)).1 (by decide)

/-- Claim C5, amended: moveSectionInCurrentTab, moveColumnInSection
and moveFieldInColumn reject out-of-range indices and no-op moves with
false and no state change; moveFieldToColumn rejects only a missing
section or missing source/target column (returning false with no state
change) — its field indices are not validated, as the counterexample
shows. -/
theorem claim_invalid_move_amended :
    (∀ (s : DMState) (a b : Int), validSectionMoveB s a b = false →
       moveSectionInCurrentTab s a b = (false, s)) ∧
    (∀ (s : DMState) (n : String) (a b : Int), validColumnMoveB s n a b = false →
       moveColumnInSection s n a b = (false, s)) ∧
    (∀ (s : DMState) (n : String) (a b c : Int), validFieldInMoveB s n a b c = false →
       moveFieldInColumn s n a b c = (false, s)) ∧
    (∀ (s : DMState) (n : String) (a b c d : Int), fieldToColumnsPresentB s n a c = false →
       moveFieldToColumn s n a b c d = (false, s)) := by
  refine ⟨?_, ?_, ?_, ?_⟩
  · intro s a b h
    unfold validSectionMoveB at h
    unfold moveSectionInCurrentTab
    cases hj : jsIndex s.tabs s.currentTab with
    | none => simp
    | some tab =>
      rw [hj] at h
      simp at h
      dsimp only
      split
      · rfl
      · rename_i hcond
        simp at hcond
        exfalso
        omega
  · intro s n a b h
    unfold validColumnMoveB at h
    unfold moveColumnInSection
    cases hj : findSectionInVirtualOrder s.tabs n with
    | none => simp
    | some sec =>
      rw [hj] at h
      simp at h
      dsimp only
      split
      · rfl
      · rename_i hcond
        simp at hcond
        exfalso
        omega
  · intro s n a b c h
    unfold validFieldInMoveB at h
    unfold moveFieldInColumn
    cases hj : findSectionInVirtualOrder s.tabs n with
    | none => simp
    | some sec =>
      rw [hj] at h
      dsimp only at h ⊢
      cases hc : jsIndex sec.columns a with
      | none => simp
      | some col =>
        rw [hc] at h
        dsimp only at h ⊢
        simp at h
        split
        · rfl
        · rename_i hcond
          simp at hcond
          exfalso
          omega
  · intro s n a b c d h
    unfold fieldToColumnsPresentB at h
    unfold moveFieldToColumn
    cases hj : findSectionInVirtualOrder s.tabs n with
    | none => simp
    | some sec =>
      rw [hj] at h
      dsimp only at h ⊢
      cases h1 : jsIndex sec.columns a <;> cases h2 : jsIndex sec.columns c <;>
        simp [h1, h2] at h ⊢

/-- Claim C5 amended witness: a concrete negative index is rejected by
moveSectionInCurrentTab with no state change. -/
theorem claim_invalid_move_amended_witness :
    validSectionMoveB (initState fieldsC5) (-1) 0 = false ∧
    moveSectionInCurrentTab (initState fieldsC5) (-1) 0 = (false, initState fieldsC5) :=
  ⟨by decide, claim_invalid_move_amended.1 (initState fieldsC5) (-1) 0 (by decide)⟩

/-! Fieldname bookkeeping of the parser, for the no-discard claim. -/

theorem colsFieldnames_append (A B : List VCol) :
    colsFieldnames (A ++ B) = colsFieldnames A ++ colsFieldnames B := by
  induction A with
  | nil => rfl
  | cons c rest ih => simp [colsFieldnames, ih]

theorem secsFieldnames_append (A B : List VSec) :
    secsFieldnames (A ++ B) = secsFieldnames A ++ secsFieldnames B := by
  induction A with
  | nil => rfl
  | cons sec rest ih => simp [secsFieldnames, ih]

theorem tabsFieldnames_append (A B : List VTab) :
    tabsFieldnames (A ++ B) = tabsFieldnames A ++ tabsFieldnames B := by
  induction A with
  | nil => rfl
  | cons t rest ih => simp [tabsFieldnames, ih]

/-- One parser step appends exactly the non-marker fieldname (markers
append nothing to the column contents). -/
theorem treeNames_step (s : PState) (f : Field) :
    tabsFieldnames (closePState (buildStep s f)) =
      tabsFieldnames (closePState s) ++ (if isBreak f then [] else [jsGet f "fieldname"]) := by
  by_cases ht : isTabBreak f
  · have hb : isBreak f = true := by simp [isBreak, ht]
    simp [buildStep, ht, hb, closePState, closePTab, closePCur,
      tabsFieldnames_append, tabsFieldnames, secsFieldnames, colsFieldnames]
  · by_cases hsec : isSectionBreak f
    · have hb : isBreak f = true := by simp [isBreak, hsec]
      cases hcur : s.cur with
      | none =>
        simp [buildStep, ht, hsec, hb, hcur, closePState, closePTab, closePCur, defaultPTab,
          tabsFieldnames_append, tabsFieldnames, secsFieldnames, secsFieldnames_append,
          colsFieldnames]
      | some t =>
        cases htc : t.cur with
        | none =>
          simp [buildStep, ht, hsec, hb, hcur, htc, closePState, closePTab, closePCur,
            tabsFieldnames_append, tabsFieldnames, secsFieldnames, secsFieldnames_append,
            colsFieldnames]
        | some c =>
          simp [buildStep, ht, hsec, hb, hcur, htc, closePState, closePTab, closePCur,
            tabsFieldnames_append, tabsFieldnames, secsFieldnames, secsFieldnames_append,
            colsFieldnames, colsFieldnames_append]
    · by_cases hcol : isColumnBreak f
      · have hb : isBreak f = true := by simp [isBreak, hcol]
        cases hcur : s.cur with
        | none =>
          simp [buildStep, ht, hsec, hcol, hb, hcur, closePState, closePTab, closePCur,
            defaultPTab, tabsFieldnames_append, tabsFieldnames, secsFieldnames,
            secsFieldnames_append, colsFieldnames]
        | some t =>
          cases htc : t.cur with
          | none =>
            simp [buildStep, ht, hsec, hcol, hb, hcur, htc, closePState, closePTab, closePCur,
              tabsFieldnames_append, tabsFieldnames, secsFieldnames, secsFieldnames_append,
              colsFieldnames]
          | some c =>
            simp [buildStep, ht, hsec, hcol, hb, hcur, htc, closePState, closePTab, closePCur,
              tabsFieldnames_append, tabsFieldnames, secsFieldnames, secsFieldnames_append,
              colsFieldnames, colsFieldnames_append]
      · have hb : isBreak f = false := by simp [isBreak, ht, hsec, hcol]
        cases hcur : s.cur with
        | none =>
          simp [buildStep, ht, hsec, hcol, hb, hcur, closePState, closePTab, closePCur,
            defaultPTab, tabsFieldnames_append, tabsFieldnames, secsFieldnames,
            secsFieldnames_append, colsFieldnames]
        | some t =>
          cases htc : t.cur with
          | none =>
            simp [buildStep, ht, hsec, hcol, hb, hcur, htc, closePState, closePTab, closePCur,
              tabsFieldnames_append, tabsFieldnames, secsFieldnames, secsFieldnames_append,
              colsFieldnames]
          | some c =>
            simp [buildStep, ht, hsec, hcol, hb, hcur, htc, closePState, closePTab, closePCur,
              tabsFieldnames_append, tabsFieldnames, secsFieldnames, secsFieldnames_append,
              colsFieldnames, colsFieldnames_append]

/-- Folding the parser over any suffix appends exactly the non-marker
fieldnames, in order. -/
theorem treeNames_foldl (fs : List Field) : ∀ s : PState,
    tabsFieldnames (closePState (fs.foldl buildStep s)) =
      tabsFieldnames (closePState s) ++
        (fs.filter (fun f => !isBreak f)).map (fun f => jsGet f "fieldname") := by
  induction fs with
  | nil => intro s; simp
  | cons f rest ih =>
    intro s
    simp only [List.foldl_cons, List.filter_cons]
    rw [ih (buildStep s f), treeNames_step]
    by_cases hb : isBreak f
    · simp [hb]
    · simp [hb]

/-- Claim C9: buildVirtualOrder is total by construction (it is a
plain total function over any descriptor list), and it discards
nothing: the column contents of the resulting tree are exactly the
fieldnames of the non-marker descriptors, each placed once, in input
order — for every input, malformed marker sequences included (default
containers are created on demand). -/
theorem claim_parser_totality_no_discard (L : List Field) :
    tabsFieldnames (buildVirtualOrder L) =
      (L.filter (fun f => !isBreak f)).map (fun f => jsGet f "fieldname") := by
  have h := treeNames_foldl L ⟨[], none⟩
  simpa [buildVirtualOrder, closePState, tabsFieldnames] using h

/-! Round-trip: flattening the parsed tree against the original list. -/

theorem Value.seq_iff (a b : Value) : Value.seq a b = true ↔ a = b := by
  cases a <;> cases b <;> simp [Value.seq]

theorem strNameOk_spec (v : Value) (h : strNameOk v = true) :
    v.truthy = true ∧ underscoreName v = false := by
  cases v <;> simp_all [strNameOk, Value.truthy]

theorem getFieldFromShadow_self (L : List Field) (h : namesDistinct L = true) :
    ∀ f ∈ L, getFieldFromShadow L (jsGet f "fieldname") = some f := by
  induction L with
  | nil => simp
  | cons f0 rest ih =>
    simp only [namesDistinct, Bool.and_eq_true, List.all_eq_true] at h
    intro f hf
    rcases List.mem_cons.mp hf with rfl | hmem
    · simp [getFieldFromShadow, List.find?, (Value.seq_iff _ _).mpr rfl]
    · have hne : Value.seq (jsGet f0 "fieldname") (jsGet f "fieldname") = false := by
        rw [Bool.eq_false_iff]
        intro htrue
        have heq := (Value.seq_iff _ _).mp htrue
        have h2 := h.1 f hmem
        rw [← heq, (Value.seq_iff _ _).mpr rfl] at h2
        simp at h2
      have ihf := ih h.2 f hmem
      simpa [getFieldFromShadow, List.find?, hne] using ihf

theorem lookupAll_append (shadow : List Field) (A B : List Value) :
    lookupAll shadow (A ++ B) = lookupAll shadow A ++ lookupAll shadow B := by
  induction A with
  | nil => rfl
  | cons v rest ih => simp [lookupAll, ih]

theorem flattenCols_append (shadow : List Field) (A B : List VCol) : ∀ i : Nat,
    flattenCols shadow i (A ++ B) =
      flattenCols shadow i A ++ flattenCols shadow (i + A.length) B := by
  induction A with
  | nil => intro i; simp [flattenCols]
  | cons c rest ih =>
    intro i
    simp only [List.cons_append, flattenCols, List.length_cons, List.append_eq]
    rw [ih (i + 1), show i + 1 + rest.length = i + (rest.length + 1) from by omega]
    simp [List.append_assoc]

theorem flattenSecs_append (shadow : List Field) (A B : List VSec) :
    flattenSecs shadow (A ++ B) = flattenSecs shadow A ++ flattenSecs shadow B := by
  induction A with
  | nil => rfl
  | cons sec rest ih => simp [flattenSecs, ih, List.append_assoc]

theorem flattenTabs_append (shadow : List Field) (A B : List VTab) :
    flattenTabs shadow (A ++ B) = flattenTabs shadow A ++ flattenTabs shadow B := by
  induction A with
  | nil => rfl
  | cons t rest ih => simp [flattenTabs, ih, List.append_assoc]

theorem markersOkB_cons (so : Bool) (f : Field) (fs : List Field) :
    markersOkB so (f :: fs) =
      (markersOkHead so f && markersOkB (if isTabBreak f then false else true) fs) := by
  by_cases ht : isTabBreak f <;> by_cases hs : isSectionBreak f <;>
    by_cases hc : isColumnBreak f <;>
      simp [markersOkB, markersOkHead, ht, hs, hc, Bool.and_assoc]

theorem pSecOpen_step (s : PState) (f : Field) :
    pSecOpen (buildStep s f) = (if isTabBreak f then false else true) := by
  by_cases ht : isTabBreak f
  · simp [buildStep, ht, pSecOpen]
  · by_cases hs : isSectionBreak f
    · cases hcur : s.cur <;> simp [buildStep, ht, hs, hcur, pSecOpen, defaultPTab]
    · by_cases hc : isColumnBreak f
      · cases hcur : s.cur with
        | none => simp [buildStep, ht, hs, hc, hcur, pSecOpen, defaultPTab]
        | some t =>
          cases htc : t.cur <;> simp [buildStep, ht, hs, hc, hcur, htc, pSecOpen]
      · cases hcur : s.cur with
        | none => simp [buildStep, ht, hs, hc, hcur, pSecOpen, defaultPTab]
        | some t =>
          cases htc : t.cur <;> simp [buildStep, ht, hs, hc, hcur, htc, pSecOpen]

/-- One parser step appends exactly the stepped descriptor to the
flattened projection, provided the descriptor resolves to itself in
the shadow list and satisfies the marker well-formedness head
condition. -/
theorem flatten_step (shadow : List Field) (s : PState) (f : Field)
    (hf : getFieldFromShadow shadow (jsGet f "fieldname") = some f)
    (hok : markersOkHead (pSecOpen s) f = true) :
    flattenTabs shadow (closePState (buildStep s f)) =
      flattenTabs shadow (closePState s) ++ [f] := by
  have hdt : ((Value.str "_default_tab").truthy &&
      !underscoreName (Value.str "_default_tab")) = false := by decide
  have hds : ((Value.str "_default_section").truthy &&
      !underscoreName (Value.str "_default_section")) = false := by decide
  by_cases ht : isTabBreak f
  · have hstr := strNameOk_spec _ (by simpa [markersOkHead, ht] using hok)
    simp [buildStep, ht, closePState, closePTab, closePCur, flattenTabs_append, flattenTabs,
      flattenSecs, flattenCols, emitLookup, hf, hstr.1, hstr.2]
  · by_cases hs : isSectionBreak f
    · have hstr := strNameOk_spec _ (by simpa [markersOkHead, ht, hs] using hok)
      cases hcur : s.cur with
      | none =>
        simp [buildStep, ht, hs, hcur, closePState, closePTab, closePCur, defaultPTab,
          flattenTabs_append, flattenTabs, flattenSecs, flattenSecs_append, flattenCols,
          lookupAll, emitLookup, hf, hstr.1, hstr.2, hdt]
      | some t =>
        cases htc : t.cur with
        | none =>
          simp [buildStep, ht, hs, hcur, htc, closePState, closePTab, closePCur,
            flattenTabs_append, flattenTabs, flattenSecs, flattenSecs_append, flattenCols,
            lookupAll, emitLookup, hf, hstr.1, hstr.2, List.append_assoc]
        | some c =>
          simp [buildStep, ht, hs, hcur, htc, closePState, closePTab, closePCur,
            flattenTabs_append, flattenTabs, flattenSecs, flattenSecs_append, flattenCols,
            lookupAll, emitLookup, hf, hstr.1, hstr.2, List.append_assoc]
    · by_cases hc : isColumnBreak f
      · cases hcur : s.cur with
        | none =>
          rw [show pSecOpen s = false from by simp [pSecOpen, hcur]] at hok
          simp [markersOkHead, ht, hs, hc] at hok
        | some t =>
          cases htc : t.cur with
          | none =>
            rw [show pSecOpen s = false from by simp [pSecOpen, hcur, htc]] at hok
            simp [markersOkHead, ht, hs, hc] at hok
          | some c =>
            have htru : (jsGet f "fieldname").truthy = true := by
              have h2 := hok
              rw [show pSecOpen s = true from by simp [pSecOpen, hcur, htc]] at h2
              simpa [markersOkHead, ht, hs, hc] using h2
            simp [buildStep, ht, hs, hc, hcur, htc, closePState, closePTab, closePCur,
              flattenTabs_append, flattenTabs, flattenSecs, flattenSecs_append,
              flattenCols_append, flattenCols, lookupAll, emitLookup, hf, htru,
              List.append_assoc]
      · cases hcur : s.cur with
        | none =>
          simp [buildStep, ht, hs, hc, hcur, closePState, closePTab, closePCur, defaultPTab,
            flattenTabs_append, flattenTabs, flattenSecs, flattenSecs_append, flattenCols,
            lookupAll, emitLookup, hf, hdt, hds]
        | some t =>
          cases htc : t.cur with
          | none =>
            simp [buildStep, ht, hs, hc, hcur, htc, closePState, closePTab, closePCur,
              flattenTabs_append, flattenTabs, flattenSecs, flattenSecs_append, flattenCols,
              lookupAll, emitLookup, hf, hds, List.append_assoc]
          | some c =>
            simp [buildStep, ht, hs, hc, hcur, htc, closePState, closePTab, closePCur,
              flattenTabs_append, flattenTabs, flattenSecs, flattenSecs_append,
              flattenCols_append, flattenCols, lookupAll_append, lookupAll, emitLookup, hf,
              List.append_assoc]

/-- Folding the parser over a well-formed suffix appends exactly that
suffix to the flattened projection. -/
theorem flatten_foldl (shadow : List Field) (fs : List Field) : ∀ s : PState,
    markersOkB (pSecOpen s) fs = true →
    (∀ f ∈ fs, getFieldFromShadow shadow (jsGet f "fieldname") = some f) →
    flattenTabs shadow (closePState (fs.foldl buildStep s)) =
      flattenTabs shadow (closePState s) ++ fs := by
  induction fs with
  | nil => intro s _ _; simp
  | cons f rest ih =>
    intro s hok hfind
    rw [markersOkB_cons] at hok
    simp only [Bool.and_eq_true] at hok
    have hnext : markersOkB (pSecOpen (buildStep s f)) rest = true := by
      rw [pSecOpen_step]; exact hok.2
    simp only [List.foldl_cons]
    rw [ih (buildStep s f) hnext (fun g hg => hfind g (by simp [hg])),
      flatten_step shadow s f (hfind f (by simp)) hok.1]
    simp

/-- Round trip: for a well-formed list, flattening the parsed virtual
order against the list itself reproduces the list exactly. -/
theorem parse_flatten_roundtrip (L : List Field) (h : wellFormed L = true) :
    flattenTree (buildVirtualOrder L) L = L := by
  unfold wellFormed at h
  simp only [Bool.and_eq_true] at h
  have hfold := flatten_foldl L L ⟨[], none⟩ (by simpa [pSecOpen] using h.2)
    (getFieldFromShadow_self L h.1)
  simpa [flattenTree, buildVirtualOrder, closePState, flattenTabs] using hfold

/-- Claim C1: loading a well-formed list with unique fieldnames and
flattening through applyVirtualOrder yields a shadow list with the
same fieldnames in the same order as the input (indeed the identical
descriptor list). -/
theorem claim_roundtrip_idempotence (L : List Field) (h : wellFormed L = true) :
    (applyVirtualOrderOp (initState L)).shadowJSON.map (fun f => jsGet f "fieldname") =
      L.map (fun f => jsGet f "fieldname") := by
  have hsh : (applyVirtualOrderOp (initState L)).shadowJSON = L := by
    simpa [applyVirtualOrderOp, initState, flattenTree] using parse_flatten_roundtrip L h
  rw [hsh]

/-- Claim C1 witness: the scenario list is well-formed and round-trips
through load plus applyVirtualOrder. -/
theorem claim_roundtrip_idempotence_witness :
    wellFormed fieldsC3 = true ∧
    (applyVirtualOrderOp (initState fieldsC3)).shadowJSON.map (fun f => jsGet f "fieldname") =
      fieldsC3.map (fun f => jsGet f "fieldname") :=
  ⟨by decide, claim_roundtrip_idempotence fieldsC3 (by decide)⟩

/-! Column-marker occupancy invariant: established by the parser and
preserved by column moves. -/

theorem colInvB_snoc (xs : List VCol) (y : VCol) (h : xs ≠ []) :
    colInvB (xs ++ [y]) = (colInvB xs && markerOfB y.columnBreakFieldname) := by
  cases xs with
  | nil => exact absurd rfl h
  | cons x rest => simp [colInvB, List.all_append, Bool.and_assoc]

theorem colInvB_fields_irrel (xs : List VCol) (o : Option Value) (l1 l2 : List Value) :
    colInvB (xs ++ [⟨o, l1⟩]) = colInvB (xs ++ [⟨o, l2⟩]) := by
  cases xs <;> simp [colInvB, List.all_append, markerOfB]

/-- One parser step preserves the occupancy invariant of the closed
tree, under the marker well-formedness head condition. -/
theorem treeInv_step (s : PState) (f : Field)
    (hok : markersOkHead (pSecOpen s) f = true)
    (hinv : treeInvB (closePState s) = true) :
    treeInvB (closePState (buildStep s f)) = true := by
  by_cases ht : isTabBreak f
  · simp only [buildStep, ht, if_true]
    simp [closePState, closePTab, treeInvB, List.all_append] at hinv ⊢
    simpa [treeInvB] using hinv
  · by_cases hs : isSectionBreak f
    · cases hcur : s.cur with
      | none =>
        simp [buildStep, ht, hs, hcur, closePState, closePTab, closePCur, defaultPTab,
          treeInvB, List.all_append, colInvB] at hinv ⊢
        exact hinv
      | some t =>
        cases htc : t.cur with
        | none =>
          simp [buildStep, ht, hs, hcur, htc, closePState, closePTab, closePCur,
            treeInvB, List.all_append, colInvB] at hinv ⊢
          exact hinv
        | some c =>
          simp [buildStep, ht, hs, hcur, htc, closePState, closePTab, closePCur,
            treeInvB, List.all_append, colInvB] at hinv ⊢
          tauto
    · by_cases hc : isColumnBreak f
      · cases hcur : s.cur with
        | none =>
          rw [show pSecOpen s = false from by simp [pSecOpen, hcur]] at hok
          simp [markersOkHead, ht, hs, hc] at hok
        | some t =>
          cases htc : t.cur with
          | none =>
            rw [show pSecOpen s = false from by simp [pSecOpen, hcur, htc]] at hok
            simp [markersOkHead, ht, hs, hc] at hok
          | some c =>
            have htru : (jsGet f "fieldname").truthy = true := by
              have h2 := hok
              rw [show pSecOpen s = true from by simp [pSecOpen, hcur, htc]] at h2
              simpa [markersOkHead, ht, hs, hc] using h2
            simp [hcur, htc, closePState, closePTab, closePCur, treeInvB,
              List.all_append] at hinv
            obtain ⟨hi1, hi2, hi3⟩ := hinv
            have hkey : colInvB (c.cols ++ [(⟨c.curName, c.curFields⟩ : VCol),
                ⟨some (jsGet f "fieldname"), []⟩]) = true := by
              rw [show c.cols ++ [(⟨c.curName, c.curFields⟩ : VCol),
                    ⟨some (jsGet f "fieldname"), []⟩] =
                  (c.cols ++ [(⟨c.curName, c.curFields⟩ : VCol)]) ++
                    [⟨some (jsGet f "fieldname"), []⟩] from by simp,
                colInvB_snoc _ _ (by simp)]
              simp [markerOfB, htru]
              exact hi3
            simp [buildStep, ht, hs, hc, hcur, htc, closePState, closePTab, closePCur,
              treeInvB, List.all_append, hkey]
            tauto
      · cases hcur : s.cur with
        | none =>
          simp [buildStep, ht, hs, hc, hcur, closePState, closePTab, closePCur, defaultPTab,
            treeInvB, List.all_append, colInvB] at hinv ⊢
          exact hinv
        | some t =>
          cases htc : t.cur with
          | none =>
            simp [buildStep, ht, hs, hc, hcur, htc, closePState, closePTab, closePCur,
              treeInvB, List.all_append, colInvB] at hinv ⊢
            exact hinv
          | some c =>
            have hirr := colInvB_fields_irrel c.cols c.curName c.curFields
              (c.curFields ++ [jsGet f "fieldname"])
            simp [buildStep, ht, hs, hc, hcur, htc, closePState, closePTab, closePCur,
              treeInvB, List.all_append, ← hirr] at hinv ⊢
            tauto

theorem treeInv_foldl (fs : List Field) : ∀ s : PState,
    markersOkB (pSecOpen s) fs = true →
    treeInvB (closePState s) = true →
    treeInvB (closePState (fs.foldl buildStep s)) = true := by
  induction fs with
  | nil => intro s _ h; exact h
  | cons f rest ih =>
    intro s hok hinv
    rw [markersOkB_cons] at hok
    simp only [Bool.and_eq_true] at hok
    have hnext : markersOkB (pSecOpen (buildStep s f)) rest = true := by
      rw [pSecOpen_step]; exact hok.2
    exact ih (buildStep s f) hnext (treeInv_step s f hok.1 hinv)

/-- Parsing a well-formed list establishes the occupancy invariant. -/
theorem buildVirtualOrder_inv (L : List Field) (h : wellFormed L = true) :
    treeInvB (buildVirtualOrder L) = true := by
  unfold wellFormed at h
  simp only [Bool.and_eq_true] at h
  have hfold := treeInv_foldl L ⟨[], none⟩ (by simpa [pSecOpen] using h.2)
    (by simp [closePState, treeInvB])
  simpa [buildVirtualOrder] using hfold

/-! Splice permutation facts. -/

theorem spliceRemoveOne_perm {α : Type} (l : List α) (a : Int)
    (h0 : 0 ≤ a) (hl : a < (l.length : Int)) :
    ∃ x rest, spliceRemoveOne l a = (some x, rest) ∧ l.Perm (x :: rest) := by
  have hlt : a.toNat < l.length := by omega
  have ha : spliceClamp l.length a = a.toNat := by
    unfold spliceClamp
    rw [if_neg (by omega)]
    omega
  obtain ⟨x, t, hxt⟩ : ∃ x t, l.drop a.toNat = x :: t := by
    cases hd : l.drop a.toNat with
    | nil =>
      rw [List.drop_eq_nil_iff] at hd
      omega
    | cons x t => exact ⟨x, t, rfl⟩
  have hday : l.drop (a.toNat + 1) = t := by
    rw [← List.tail_drop, hxt]
    rfl
  refine ⟨x, l.take a.toNat ++ l.drop (a.toNat + 1), by simp [spliceRemoveOne, ha, hxt], ?_⟩
  rw [hday]
  have hperm : (l.take a.toNat ++ (x :: t)).Perm (x :: (l.take a.toNat ++ t)) :=
    List.perm_middle
  have hdec : l = l.take a.toNat ++ (x :: t) := by
    rw [← hxt, List.take_append_drop]
  conv_lhs => rw [hdec]
  exact hperm

theorem spliceInsert_perm {α : Type} (l : List α) (b : Int) (x : α) :
    (spliceInsert l b x).Perm (x :: l) := by
  have h1 : (l.take (spliceClamp l.length b) ++ x :: l.drop (spliceClamp l.length b)).Perm
      (x :: (l.take (spliceClamp l.length b) ++ l.drop (spliceClamp l.length b))) :=
    List.perm_middle
  rw [List.take_append_drop] at h1
  simpa [spliceInsert] using h1

theorem listMoveSplice_perm {α : Type} (l : List α) (a b : Int)
    (h0 : 0 ≤ a) (hl : a < (l.length : Int)) : (listMoveSplice l a b).Perm l := by
  obtain ⟨x, rest, hsp, hperm⟩ := spliceRemoveOne_perm l a h0 hl
  unfold listMoveSplice
  rw [hsp]
  exact (spliceInsert_perm rest b x).trans hperm.symm

/-! Counting the pooled Column Break names. -/

theorem collect_truthy (cols : List VCol) :
    ∀ v ∈ collectColumnBreaks cols, v.truthy = true := by
  intro v hv
  obtain ⟨c, _, hc⟩ := List.mem_filterMap.mp hv
  cases hcb : c.columnBreakFieldname with
  | none => simp [hcb] at hc
  | some w =>
    rw [hcb] at hc
    by_cases hw : w.truthy
    · simp [hw] at hc
      rw [← hc]
      exact hw
    · simp [hw] at hc

theorem collect_length_all (cols : List VCol)
    (h : cols.all (fun d => markerOfB d.columnBreakFieldname) = true) :
    (collectColumnBreaks cols).length = cols.length := by
  induction cols with
  | nil => rfl
  | cons d ds ih =>
    simp only [List.all_cons, Bool.and_eq_true] at h
    cases hcb : d.columnBreakFieldname with
    | none =>
      rw [hcb] at h
      simp [markerOfB] at h
    | some w =>
      have hw : w.truthy = true := by
        have h1 := h.1
        rw [hcb] at h1
        exact h1
      simp only [collectColumnBreaks, List.filterMap_cons, hcb, hw, if_true]
      simp only [collectColumnBreaks] at ih
      simp [ih h.2]

theorem collect_length_of_inv (cols : List VCol) (h : colInvB cols = true) (hne : cols ≠ []) :
    (collectColumnBreaks cols).length + 1 = cols.length := by
  cases cols with
  | nil => exact absurd rfl hne
  | cons c rest =>
    simp only [colInvB, Bool.and_eq_true, beq_iff_eq] at h
    have hhead : collectColumnBreaks (c :: rest) = collectColumnBreaks rest := by
      simp [collectColumnBreaks, List.filterMap_cons, h.1]
    rw [hhead, collect_length_all rest h.2]
    simp

theorem reassignBreaks_all (cols : List VCol) : ∀ (pool : List Value) (i : Nat),
    1 ≤ i → cols.length ≤ pool.length → (∀ v ∈ pool, v.truthy = true) →
    (reassignBreaks cols pool i).all (fun d => markerOfB d.columnBreakFieldname) = true := by
  induction cols with
  | nil => intro pool i _ _ _; rfl
  | cons d ds ih =>
    intro pool i hi hlen htr
    cases pool with
    | nil => simp at hlen
    | cons p ps =>
      have hip : i ≠ 0 := by omega
      simp only [reassignBreaks, hip, if_false]
      simp only [List.all_cons, Bool.and_eq_true]
      refine ⟨?_, ih ps (i + 1) (by omega) (by simpa using hlen)
        (fun v hv => htr v (by simp [hv]))⟩
      simpa [markerOfB] using htr p (by simp)

/-- fixColumnBreakAssignments restores the occupancy invariant
whenever the pool is large enough (at least columns minus one) and all
pooled names are truthy. -/
theorem fixColumnBreakAssignments_inv (cols : List VCol)
    (hlen : cols.length ≤ (collectColumnBreaks cols).length + 1)
    (htr : ∀ v ∈ collectColumnBreaks cols, v.truthy = true) :
    colInvB (fixColumnBreakAssignments cols) = true := by
  unfold fixColumnBreakAssignments
  cases cols with
  | nil => rfl
  | cons c rest =>
    simp only [reassignBreaks, if_true]
    simp only [colInvB, Bool.and_eq_true]
    refine ⟨by simp, ?_⟩
    refine reassignBreaks_all rest (collectColumnBreaks (c :: rest)) 1 (by omega) ?_ htr
    have h2 := hlen
    simp only [List.length_cons] at h2
    omega

/-! Preservation of the tree invariant by moveColumnInSection. -/

theorem findSectionInVirtualOrder_mem (tabs : List VTab) (n : String) (sec : VSec)
    (h : findSectionInVirtualOrder tabs n = some sec) :
    ∃ t ∈ tabs, sec ∈ t.sections := by
  induction tabs with
  | nil => simp [findSectionInVirtualOrder] at h
  | cons t rest ih =>
    simp only [findSectionInVirtualOrder] at h
    cases hf : t.sections.find? (fun s2 => Value.seq s2.fieldname (.str n)) with
    | some s2 =>
      rw [hf] at h
      obtain rfl : s2 = sec := by simpa using h
      exact ⟨t, by simp, List.mem_of_find?_eq_some hf⟩
    | none =>
      rw [hf] at h
      obtain ⟨t2, ht2, hsec⟩ := ih h
      exact ⟨t2, by simp [ht2], hsec⟩

theorem replaceSecInList_all (secs : List VSec) (n : String) (newSec : VSec) :
    ∀ secs2 : List VSec, replaceSecInList secs n newSec = some secs2 →
    secs.all (fun sec => colInvB sec.columns) = true →
    colInvB newSec.columns = true →
    secs2.all (fun sec => colInvB sec.columns) = true := by
  induction secs with
  | nil => intro secs2 h _ _; simp [replaceSecInList] at h
  | cons sec rest ih =>
    intro secs2 h hall hnew
    simp only [List.all_cons, Bool.and_eq_true] at hall
    simp only [replaceSecInList] at h
    by_cases hm : Value.seq sec.fieldname (.str n) = true
    · rw [if_pos hm] at h
      obtain rfl : newSec :: rest = secs2 := by simpa using h
      simp only [List.all_cons, Bool.and_eq_true]
      exact ⟨hnew, hall.2⟩
    · rw [if_neg (by simpa using hm)] at h
      cases hr : replaceSecInList rest n newSec with
      | none =>
        rw [hr] at h
        simp at h
      | some rest2 =>
        rw [hr] at h
        obtain rfl : sec :: rest2 = secs2 := by simpa using h
        simp only [List.all_cons, Bool.and_eq_true]
        exact ⟨hall.1, ih rest2 hr hall.2 hnew⟩

theorem replaceFirstSection_inv (tabs : List VTab) (n : String) (newSec : VSec)
    (hall : treeInvB tabs = true) (hnew : colInvB newSec.columns = true) :
    treeInvB (replaceFirstSection tabs n newSec) = true := by
  induction tabs with
  | nil => rfl
  | cons t rest ih =>
    simp only [treeInvB, List.all_cons, Bool.and_eq_true] at hall
    simp only [replaceFirstSection]
    cases hr : replaceSecInList t.sections n newSec with
    | some secs2 =>
      simp only [treeInvB, List.all_cons, Bool.and_eq_true]
      exact ⟨replaceSecInList_all t.sections n newSec secs2 hr hall.1 hnew,
        by simpa [treeInvB] using hall.2⟩
    | none =>
      simp only [treeInvB, List.all_cons, Bool.and_eq_true]
      exact ⟨hall.1, by simpa [treeInvB] using ih (by simpa [treeInvB] using hall.2)⟩

/-- moveColumnInSection — successful or rejected — preserves the
occupancy invariant of the whole tree. -/
theorem moveColumnInSection_inv (s : DMState) (n : String) (a b : Int)
    (h : treeInvB s.tabs = true) :
    treeInvB (moveColumnInSection s n a b).2.tabs = true := by
  unfold moveColumnInSection
  cases hf : findSectionInVirtualOrder s.tabs n with
  | none => simpa using h
  | some sec =>
    dsimp only
    split
    · simpa using h
    · rename_i hcond
      simp only [Bool.or_eq_true, decide_eq_true_eq, beq_iff_eq, not_or] at hcond
      have hsec : colInvB sec.columns = true := by
        obtain ⟨t, ht, hmem⟩ := findSectionInVirtualOrder_mem s.tabs n sec hf
        have ht2 := (List.all_eq_true.mp h) t ht
        exact (List.all_eq_true.mp ht2) sec hmem
      have hperm := listMoveSplice_perm sec.columns a b (by omega) (by omega)
      have hfix : colInvB (fixColumnBreakAssignments (listMoveSplice sec.columns a b)) =
          true := by
        apply fixColumnBreakAssignments_inv
        · have hlen1 : (listMoveSplice sec.columns a b).length = sec.columns.length :=
            hperm.length_eq
          have hlen2 : (collectColumnBreaks (listMoveSplice sec.columns a b)).length =
              (collectColumnBreaks sec.columns).length :=
            List.Perm.length_eq (List.Perm.filterMap _ hperm)
          have hne : sec.columns ≠ [] := by
            intro hnil
            rw [hnil] at hcond
            simp only [List.length_nil, Nat.cast_zero] at hcond
            omega
          have hcl := collect_length_of_inv sec.columns hsec hne
          omega
        · exact collect_truthy _
      simpa using replaceFirstSection_inv s.tabs n _ h hfix

/-- Claim C2: starting from the virtual order parsed from a
well-formed list, any sequence of moveColumnInSection calls (each
either succeeding or rejected) keeps the occupancy invariant: in every
section, column 0 has no Column Break reference and every column at
index ≥ 1 has exactly one. -/
theorem claim_marker_invariant_preservation (L : List Field)
    (moves : List (String × Int × Int)) (h : wellFormed L = true) :
    treeInvB (moves.foldl
      (fun s2 m => (moveColumnInSection s2 m.1 m.2.1 m.2.2).2) (initState L)).tabs = true := by
  have hrun : ∀ (ms : List (String × Int × Int)) (s : DMState), treeInvB s.tabs = true →
      treeInvB (ms.foldl (fun s2 m => (moveColumnInSection s2 m.1 m.2.1 m.2.2).2) s).tabs =
        true := by
    intro ms
    induction ms with
    | nil => intro s hs; exact hs
    | cons m rest ih =>
      intro s hs
      exact ih _ (moveColumnInSection_inv s m.1 m.2.1 m.2.2 hs)
  exact hrun moves (initState L) (by simpa [initState] using buildVirtualOrder_inv L h)

/-- Claim C2 witness: two concrete column moves on the loaded scenario
list keep the occupancy invariant. -/
theorem claim_marker_invariant_preservation_witness :
    wellFormed fieldsC3 = true ∧
    treeInvB ([("s", (2 : Int), (0 : Int)), ("s", (0 : Int), (1 : Int))].foldl
      (fun s2 m => (moveColumnInSection s2 m.1 m.2.1 m.2.2).2) (initState fieldsC3)).tabs =
      true :=
  ⟨by decide, claim_marker_invariant_preservation fieldsC3
    [("s", 2, 0), ("s", 0, 1)] (by decide)⟩

/-! Change-set bookkeeping for the amended diff-minimality claim. -/

theorem lookupKey_append_some {α : Type} (l1 l2 : List (String × α)) (k : String) (m : α)
    (h : lookupKey l1 k = some m) : lookupKey (l1 ++ l2) k = some m := by
  induction l1 with
  | nil => exact Option.noConfusion h
  | cons e rest ih =>
    by_cases he : e.1 = k
    · simp only [lookupKey, he, if_true] at h ⊢
      simpa using h
    · simp only [lookupKey, he, if_false, List.cons_append] at h ⊢
      exact ih h

theorem lookupKey_addChange_ne (cs : List (String × List (String × Value)))
    (fn p : String) (v : Value) (k : String) (h : fn ≠ k) :
    lookupKey (addChange cs fn p v) k = lookupKey cs k := by
  cases hc : lookupKey cs fn with
  | some m => simp [addChange, hc, lookupKey_setKey_ne _ fn k _ h]
  | none =>
    cases hk : lookupKey cs k with
    | some m2 => simp [addChange, hc, lookupKey_append_some cs _ k m2 hk]
    | none => simp [addChange, hc, lookupKey_append_none cs _ k hk, lookupKey, h]

/-- trackIdxChanges adds nothing under a key whose resolved positions
all agree with the index map. -/
theorem trackFold_preserve (m : List (String × Nat)) (fnKey : String)
    (pairs : List (Nat × Field)) : ∀ cs : List (String × List (String × Value)),
    (pairs.all (fun p =>
      if (jsGet p.2 "fieldname").toKey == fnKey then
        match lookupKey m fnKey with
        | none => true
        | some j => j == p.1
      else true) = true) →
    lookupKey (pairs.foldl (fun acc p => trackIdxStep m acc p.1 p.2) cs) fnKey =
      lookupKey cs fnKey := by
  induction pairs with
  | nil => intro cs _; rfl
  | cons p rest ih =>
    intro cs hall
    simp only [List.all_cons, Bool.and_eq_true] at hall
    simp only [List.foldl_cons]
    rw [ih _ hall.2]
    have hhead := hall.1
    unfold trackIdxStep
    cases hm : lookupKey m ((jsGet p.2 "fieldname").toKey) with
    | none => rfl
    | some j =>
      dsimp only
      split
      · rename_i hj
        by_cases hk : (jsGet p.2 "fieldname").toKey = fnKey
        · rw [if_pos (by simpa using hk)] at hhead
          rw [hk] at hm
          rw [hm] at hhead
          exact absurd (by simpa using hhead) hj
        · exact lookupKey_addChange_ne cs _ "idx" _ fnKey hk
      · rfl

/-- A single command preserves the absence of a change-set entry for a
key whose head condition holds. -/
theorem stepCmd_changes_none (s : DMState) (c : Cmd) (fnKey : String)
    (hnone : lookupKey s.changes fnKey = none)
    (hok : untouchedHeadB fnKey s c = true) :
    lookupKey (stepCmd s c).changes fnKey = none := by
  cases c with
  | update target p v =>
    simp only [stepCmd, updateFieldProperty]
    cases hu : updateFirstField s.shadowJSON target (fun f => jsSet f p (coerceCheckbox v)) with
    | none => simpa using hnone
    | some sh2 =>
      have hne : target.toKey ≠ fnKey := by
        simp only [untouchedHeadB, hu, Bool.or_eq_true] at hok
        rcases hok with hok | hok
        · simpa using hok
        · simp at hok
      simp only
      rw [lookupKey_addChange_ne s.changes target.toKey p (coerceCheckbox v) fnKey hne]
      exact hnone
  | moveSec a b =>
    simp only [stepCmd]
    rw [(moveSectionInCurrentTab_frame s a b).2.2.1]
    exact hnone
  | moveCol n a b =>
    simp only [stepCmd]
    rw [(moveColumnInSection_frame s n a b).2.2.1]
    exact hnone
  | moveFieldIn n a b c2 =>
    simp only [stepCmd]
    rw [(moveFieldInColumn_frame s n a b c2).2.2.1]
    exact hnone
  | moveFieldTo n a b c2 d =>
    simp only [stepCmd]
    rw [(moveFieldToColumn_frame s n a b c2 d).2.2.1]
    exact hnone
  | applyOrder =>
    have hst : idxStableB fnKey s = true := hok
    simp only [stepCmd, applyVirtualOrderOp, trackIdxChanges]
    rw [trackFold_preserve (buildIdxMap s.rawFields) fnKey _ s.changes
      (by simpa [idxStableB] using hst)]
    exact hnone
  | setTab i =>
    simp only [stepCmd]
    rw [(setCurrentTab_frame s i).2.2]
    exact hnone
  | clearAll => rfl
  | revertAll => rfl

theorem untouched_run (cmds : List Cmd) : ∀ (s : DMState) (fnKey : String),
    lookupKey s.changes fnKey = none → untouchedB fnKey s cmds = true →
    lookupKey (runCmds s cmds).changes fnKey = none := by
  induction cmds with
  | nil => intro s fnKey hnone _; exact hnone
  | cons c cs ih =>
    intro s fnKey hnone hu
    simp only [untouchedB, Bool.and_eq_true] at hu
    exact ih (stepCmd s c) fnKey (stepCmd_changes_none s c fnKey hnone hu.1) hu.2

/-- Claim C6, amended: a fieldname key has a change-set entry only if
some command touched it; concretely, if along the command sequence
every updateFieldProperty aimed at the key fails or targets another
key, and every applyVirtualOrder runs while the key is index-stable
against the pristine list, then the key never appears in the change
set.  (The original claim is refuted by the counterexample: a
successful no-op edit records an entry although nothing differs from
the pristine list.) -/
theorem claim_diff_minimality_amended (L : List Field) (cmds : List Cmd) (fnKey : String)
    (h : untouchedB fnKey (initState L) cmds = true) :
    lookupKey (runCmds (initState L) cmds).changes fnKey = none :=
  untouched_run cmds (initState L) fnKey rfl h

/-- Claim C6 amended witness: an edit of another field plus a flatten
that moves nothing leaves no entry for the untouched field. -/
theorem claim_diff_minimality_amended_witness :
    untouchedB "f1" (initState fieldsC5)
      [Cmd.update (Value.str "f2") "label" (Value.str "X"), Cmd.applyOrder] = true ∧
    lookupKey (runCmds (initState fieldsC5)
      [Cmd.update (Value.str "f2") "label" (Value.str "X"), Cmd.applyOrder]).changes "f1" =
      none :=
  ⟨by decide, claim_diff_minimality_amended fieldsC5
    [Cmd.update (Value.str "f2") "label" (Value.str "X"), Cmd.applyOrder] "f1" (by decide)⟩

end LayoutEditor
